import Mathlib

/-!
Verification of the slice interning engine of `src/core/lib/slice/slice_intern.c`.

The embedding is a shallow, sequential model of the C file:

* an `interned_slice_refcount` record is modelled with a ghost allocation
  identity `id` standing in for the record's heap address; the inline byte
  storage `(uint8_t *)(s + 1)` is the field `content` (so `length` is
  `content.length`), and the intrusive `bucket_next` chain is the position of
  the record inside its bucket's list;
* the seeded 32-bit hash (`gpr_murmur_hash3` with `g_hash_seed`) is an external
  collaborator and enters the model as an opaque parameter `hashFn`; the fixed
  external table of static metadata strings (`grpc_static_slice_table`,
  `GRPC_STATIC_MDSTR_COUNT`) enters as the parameter `staticTbl`;
* atomic operations on a refcount become plain reads and writes of the
  `refcnt` field: in the source every structural access to a shard happens
  under that shard's mutex, so a sequential interleaving at the granularity of
  whole operations is faithful for everything a single call observes.  States
  in which a chain still holds a record whose count has already reached zero
  (the "dying entry" window of the resurrection race) are representable
  directly and are treated explicitly where a claim is about them;
* fatal conditions (a `GPR_ASSERT` failure, or the null-pointer walk in
  `interned_slice_destroy` when the record is missing from its chain) are
  modelled as `none` of an `Option`-valued operation.
-/

namespace SliceIntern

/-- Source constant `LOG2_SHARD_COUNT` (slice_intern.c:47). -/
def LOG2_SHARD_COUNT : Nat := 5

/-- Source constant `SHARD_COUNT = 1 << LOG2_SHARD_COUNT` (slice_intern.c:48). -/
def SHARD_COUNT : Nat := 1 <<< LOG2_SHARD_COUNT

/-- Source constant `INITIAL_SHARD_CAPACITY` (slice_intern.c:49). -/
def INITIAL_SHARD_CAPACITY : Nat := 8

/-- Source macro `TABLE_IDX(hash, capacity) = ((hash >> LOG2_SHARD_COUNT) % capacity)`
(slice_intern.c:51). -/
def TABLE_IDX (hash capacity : Nat) : Nat := (hash >>> LOG2_SHARD_COUNT) % capacity

/-- Source macro `SHARD_IDX(hash) = (hash & ((1 << LOG2_SHARD_COUNT) - 1))`
(slice_intern.c:52). -/
def SHARD_IDX (hash : Nat) : Nat := hash &&& ((1 <<< LOG2_SHARD_COUNT) - 1)

/-- `2^32`, the modulus of `uint32_t` arithmetic.  The static-table lookup
loops compute `hash + i` with both operands `uint32_t`
(slice_intern.c:184-186 and 202-204), so that sum wraps modulo `2^32` before
the reduction modulo the table size, whereas the build's probe at
slice_intern.c:283 adds `uint32_t + size_t` in `size_t` and does not wrap. -/
def UINT32_MOD : Nat := 4294967296

/-- Model of `interned_slice_refcount` (slice_intern.c:54-60).  `id` is a ghost
identity standing for the record's address, `content` the inline byte storage
(`length == content.length`), `refcnt` the atomic count, `hash` the cached
hash.  The `base` vtable pointer needs no model (the vtable is constant), and
`bucket_next` is encoded by list position. -/
structure interned_slice_refcount where
  id : Nat
  refcnt : Nat
  hash : Nat
  content : List Nat
deriving DecidableEq, Repr

instance : Inhabited interned_slice_refcount := ⟨⟨0, 0, 0, []⟩⟩

/-- Model of `slice_shard` (slice_intern.c:62-67): the bucket array `strs`
(each bucket an intrusive chain, head first), the live-entry `count` and the
`capacity`.  The mutex `mu` has no sequential content and is dropped. -/
structure slice_shard where
  strs : List (List interned_slice_refcount)
  count : Nat
  capacity : Nat
deriving DecidableEq, Repr

instance : Inhabited slice_shard := ⟨⟨[], 0, 0⟩⟩

/-- The mutable global state of the dynamic intern table: the 32 shards
`g_shards` (slice_intern.c:73) plus a ghost allocation counter delivering
fresh record identities. -/
structure InternTable where
  shards : List slice_shard
  next_id : Nat
deriving DecidableEq, Repr

/-- Model of a `grpc_slice` as far as this file is concerned:
`staticRef idx` is an element of `grpc_static_slice_table` (for which
`grpc_is_static_metadata_string` answers true); `transient c` is any
non-interned slice with content `c` (`refcount == NULL` or a foreign
refcount, hashed by `grpc_slice_default_hash_impl`); `interned id view` is a
slice whose refcount is the interned record `id` and whose byte view is
`view` (for a slice produced by `materialize`, `view` is exactly the record's
inline content). -/
inductive grpc_slice where
  | staticRef (idx : Nat)
  | transient (content : List Nat)
  | interned (id : Nat) (view : List Nat)
deriving DecidableEq, Repr

/-- Model of the external predicate `grpc_is_static_metadata_string`
(static_metadata.h): true exactly for elements of `grpc_static_slice_table`. -/
def grpc_is_static_metadata_string : grpc_slice → Bool
  | .staticRef _ => true
  | _ => false

/-- Every record reachable from some shard's bucket array, in shard order then
bucket order then chain order. -/
def allHandles (st : InternTable) : List interned_slice_refcount :=
  (st.shards.map (fun sh => sh.strs.flatten)).flatten

/-- Resolve a record address (ghost id) against the table. -/
def findHandle (st : InternTable) (id : Nat) : Option interned_slice_refcount :=
  (allHandles st).find? (fun h => h.id == id)

/-- The bucket chain a hash value selects: chain `TABLE_IDX(hash, capacity)` of
shard `SHARD_IDX(hash)` (`shard->strs[idx]` on slice_intern.c:217-218). -/
def internChainAt (st : InternTable) (h : Nat) : List interned_slice_refcount :=
  (st.shards.getD (SHARD_IDX h) default).strs.getD
    (TABLE_IDX h (st.shards.getD (SHARD_IDX h) default).capacity) []

section Model

variable (hashFn : List Nat → Nat) (staticTbl : List (List Nat))

/-- Content of a slice as compared by the external comparator
`grpc_slice_cmp` (byte equality). -/
def sliceContent (st : InternTable) : grpc_slice → List Nat
  | .staticRef idx => staticTbl.getD idx []
  | .transient c => c
  | .interned id view =>
    match findHandle st id with
    | some _ => view
    | none => view

/-- Model of the fields of `static_metadata_hash_ent` (slice_intern.c:75-78):
a `(hash, idx)` pair; an empty slot is marked by `idx = GRPC_STATIC_MDSTR_COUNT`.
The whole static-side state built by `grpc_slice_intern_init`:
`static_metadata_hash` and `max_static_metadata_hash_probe`
(slice_intern.c:80-82). -/
structure StaticHashState where
  tbl : List (Nat × Nat)
  maxProbe : Nat
deriving DecidableEq, Repr

/-- Insertion of one static string into `static_metadata_hash`, the inner loop
of `grpc_slice_intern_init` (slice_intern.c:282-293): probe `(hash + j) % size`
for the first empty slot (`idx == GRPC_STATIC_MDSTR_COUNT`), store `(hash, i)`
there and fold `j` into `max_static_metadata_hash_probe`. -/
def staticInsert (S : StaticHashState) (h i : Nat) : StaticHashState :=
  let size := 4 * staticTbl.length
  match (List.range size).find?
      (fun j => (S.tbl.getD ((h + j) % size) (0, 0)).2 == staticTbl.length) with
  | some j =>
    { tbl := S.tbl.set ((h + j) % size) (h, i),
      maxProbe := max S.maxProbe j }
  | none => S

/-- Hash of static string `i`, entry of `static_metadata_hash_values`
(slice_intern.c:280): `grpc_slice_default_hash_impl` of its bytes. -/
def staticHv (i : Nat) : Nat := hashFn (staticTbl.getD i [])

/-- The static side of `grpc_slice_intern_init` (slice_intern.c:274-295):
start from an all-empty table (`idx = GRPC_STATIC_MDSTR_COUNT`, probe max 0)
and insert every static string in index order. -/
def buildStatic : StaticHashState :=
  (List.range staticTbl.length).foldl
    (fun S i => staticInsert staticTbl S (staticHv hashFn staticTbl i) i)
    ⟨List.replicate (4 * staticTbl.length) (0, staticTbl.length), 0⟩

/-- The static-table probe loop shared by `grpc_slice_static_intern`
(slice_intern.c:184-193) and `grpc_slice_intern` (slice_intern.c:202-209):
for `i` in `0..=max_static_metadata_hash_probe` inspect slot
`(hash + i) % size`, where `hash + i` is computed with both operands
`uint32_t` and therefore wraps modulo `2^32` before the reduction modulo the
table size (unlike the build's `size_t` addition on slice_intern.c:283); a
hit needs the stored hash to equal the query hash, a valid index, and byte
equality with the query.  Returns the static index hit, if any. -/
def staticProbe (h : Nat) (c : List Nat) : Option Nat :=
  let S := buildStatic hashFn staticTbl
  let size := 4 * staticTbl.length
  match (List.range (S.maxProbe + 1)).find? (fun j =>
      let ent := S.tbl.getD (((h + j) % UINT32_MOD) % size) (0, 0)
      ent.1 == h && decide (ent.2 < staticTbl.length) &&
        staticTbl.getD ent.2 [] == c) with
  | some j => some ((S.tbl.getD
      (((h + j) % UINT32_MOD) % (4 * staticTbl.length)) (0, 0)).2)
  | none => none

/-- Model of `interned_slice_hash` (slice_intern.c:113-120): if the slice's
byte view is exactly the record's inline storage (the pointer-and-length fast
path), return the cached hash; otherwise fall back to the default hash over
the view's bytes. -/
def interned_slice_hash (s : interned_slice_refcount) (view : List Nat) : Nat :=
  if view = s.content then s.hash else hashFn view

/-- Model of `grpc_slice_hash` (slice_intern.c:173-176) together with the two
vtable hash implementations: a `NULL`-refcount or foreign slice uses
`grpc_slice_default_hash_impl` (slice_intern.c:160-163), a static slice uses
`grpc_static_slice_hash` (slice_intern.c:165-171) whose table value equals the
default hash of its bytes, and an interned slice uses `interned_slice_hash`. -/
def grpc_slice_hash (st : InternTable) : grpc_slice → Nat
  | .staticRef idx => hashFn (staticTbl.getD idx [])
  | .transient c => hashFn c
  | .interned id view =>
    match findHandle st id with
    | some s => interned_slice_hash hashFn s view
    | none => hashFn view

/-- Result of one bucket-chain scan of `grpc_slice_intern`
(slice_intern.c:216-233).  `chain` is the chain after the scan's refcount
effects, `found` the record returned on a live hit (with its count already
incremented), and `casFailed` records whether the `GPR_ASSERT(gpr_atm_rel_cas
(&s->refcnt, 1, 0))` resurrection guard ever failed (which would abort the
process). -/
structure ScanResult where
  chain : List interned_slice_refcount
  found : Option interned_slice_refcount
  casFailed : Bool
deriving DecidableEq, Repr

/-- The bucket-chain scan of `grpc_slice_intern` (slice_intern.c:216-233).
For each record whose `hash` matches and whose content compares equal:
fetch-and-add the refcount; if the pre-increment value was `0` the record is
dying, so compare-and-swap the count from `1` back to `0` and keep scanning
(treat as a miss); otherwise stop and return the record. -/
def scanChain (h : Nat) (c : List Nat) :
    List interned_slice_refcount → ScanResult
  | [] => ⟨[], none, false⟩
  | s :: rest =>
    if s.hash = h ∧ s.content = c then
      -- the fetch-and-add leaves the count at s.refcnt + 1 and returns the
      -- pre-increment value s.refcnt
      if s.refcnt = 0 then
        -- GPR_ASSERT(gpr_atm_rel_cas(&s->refcnt, 1, 0)): the CAS succeeds
        -- exactly when the current count, s.refcnt + 1, equals 1
        if s.refcnt + 1 = 1 then
          let r := scanChain h c rest
          ⟨{ s with refcnt := 0 } :: r.chain, r.found, r.casFailed⟩
        else
          ⟨{ s with refcnt := s.refcnt + 1 } :: rest, none, true⟩
      else
        ⟨{ s with refcnt := s.refcnt + 1 } :: rest,
          some { s with refcnt := s.refcnt + 1 }, false⟩
    else
      let r := scanChain h c rest
      ⟨s :: r.chain, r.found, r.casFailed⟩

/-- Model of `grow_shard` (slice_intern.c:125-150): allocate a zeroed bucket
array of twice the capacity and re-link every record of every old bucket at
the head of new bucket `TABLE_IDX(s->hash, new_capacity)`, following each old
chain head-to-tail.  Content, hash and refcount of the records are not
touched; `count` is unchanged. -/
def grow_shard (shard : slice_shard) : slice_shard :=
  let capacity := shard.capacity * 2
  let strtab := shard.strs.foldl
    (fun tab chain => chain.foldl
      (fun tab s =>
        let idx := TABLE_IDX s.hash capacity
        tab.set idx (s :: tab.getD idx [])) tab)
    (List.replicate capacity [])
  { strs := strtab, count := shard.count, capacity := capacity }

/-- Result of one `grpc_slice_intern` call, with two ghost observations:
whether the call acquired a shard mutex and whether it allocated a fresh
record (`gpr_malloc` on slice_intern.c:237). -/
structure InternResult where
  state : InternTable
  slice : grpc_slice
  tookLock : Bool
  allocated : Bool
deriving DecidableEq, Repr

/-- Model of `grpc_slice_intern` (slice_intern.c:196-255).  In order: return a
static slice unchanged; compute the hash; probe the static table and return
the static table entry on a hit; otherwise lock shard `SHARD_IDX(hash)`, scan
the bucket chain at `TABLE_IDX(hash, capacity)` and return a live match with
its count incremented; otherwise allocate a fresh record with count 1, push it
at the chain head, bump `count`, grow the shard if `count > capacity * 2`, and
return the new record. -/
def grpc_slice_intern (st : InternTable) (slice : grpc_slice) : InternResult :=
  if grpc_is_static_metadata_string slice then ⟨st, slice, false, false⟩ else
  let c := sliceContent staticTbl st slice
  let h := grpc_slice_hash hashFn staticTbl st slice
  match staticProbe hashFn staticTbl h c with
  | some idx => ⟨st, .staticRef idx, false, false⟩
  | none =>
    let si := SHARD_IDX h
    let shard := st.shards.getD si default
    let bi := TABLE_IDX h shard.capacity
    let chain := shard.strs.getD bi []
    let r := scanChain h c chain
    match r.found with
    | some s =>
      let shard' := { shard with strs := shard.strs.set bi r.chain }
      ⟨⟨st.shards.set si shard', st.next_id⟩, .interned s.id s.content,
        true, false⟩
    | none =>
      let snew : interned_slice_refcount := ⟨st.next_id, 1, h, c⟩
      let shard1 : slice_shard :=
        { strs := shard.strs.set bi (snew :: r.chain),
          count := shard.count + 1,
          capacity := shard.capacity }
      let shard2 := if shard1.count > shard1.capacity * 2
        then grow_shard shard1 else shard1
      ⟨⟨st.shards.set si shard2, st.next_id + 1⟩, .interned snew.id c,
        true, true⟩

/-- Unlink the first chain record with address `id`; `none` when the record is
not in the chain, in which case the walk of `interned_slice_destroy`
(slice_intern.c:96-99) runs off the end of the chain and dereferences a null
pointer — a fatal invariant violation, not a recoverable error. -/
def removeFirstById (id : Nat) :
    List interned_slice_refcount → Option (List interned_slice_refcount)
  | [] => none
  | s :: rest =>
    if s.id = id then some rest
    else (removeFirstById id rest).map (s :: ·)

/-- Model of `interned_slice_destroy` (slice_intern.c:90-104): lock shard
`SHARD_IDX(s->hash)`, assert the record's current count is 0, unlink it from
the chain at `TABLE_IDX(s->hash, capacity)`, decrement the shard's `count` and
free the block.  Both fatal outcomes (assert failure; record missing from its
expected chain) are `none`. -/
def interned_slice_destroy (st : InternTable) (s : interned_slice_refcount) :
    Option InternTable :=
  let si := SHARD_IDX s.hash
  let shard := st.shards.getD si default
  let bi := TABLE_IDX s.hash shard.capacity
  let chain := shard.strs.getD bi []
  if chain.any (fun x => x.id == s.id && x.refcnt == 0) then
    match removeFirstById s.id chain with
    | some chain' =>
      some ⟨st.shards.set si
        { strs := shard.strs.set bi chain',
          count := shard.count - 1,
          capacity := shard.capacity }, st.next_id⟩
    | none => none
  else none

/-- Apply `f` to the record with address `id`, wherever it is linked. -/
def updateHandle (st : InternTable) (id : Nat)
    (f : interned_slice_refcount → interned_slice_refcount) : InternTable :=
  ⟨st.shards.map (fun sh =>
    { sh with strs := sh.strs.map (fun chain => chain.map (fun h =>
        if h.id = id then f h else h)) }), st.next_id⟩

/-- Model of `interned_slice_unref` (slice_intern.c:106-111): atomically
decrement the record's count; if the pre-decrement value was 1 the caller held
the last reference and the record is destroyed.  An unref through a dangling
record address is `none` (use after free, undefined in C). -/
def interned_slice_unref (st : InternTable) (id : Nat) : Option InternTable :=
  match findHandle st id with
  | none => none
  | some s =>
    let st' := updateHandle st id (fun h => { h with refcnt := h.refcnt - 1 })
    if s.refcnt = 1 then
      interned_slice_destroy st' { s with refcnt := 0 }
    else
      some st'

/-- Model of `grpc_slice_static_intern` (slice_intern.c:178-194): a static
slice is returned unchanged; otherwise the identical static-table probe runs
and, on a hit, the input slice is unref'd and rewritten in place to the
canonical static handle; on a miss the input is left entirely unchanged.
There is no fall-through to the dynamic table. -/
def grpc_slice_static_intern (st : InternTable) (slice : grpc_slice) :
    InternTable × grpc_slice :=
  if grpc_is_static_metadata_string slice then (st, slice) else
  let c := sliceContent staticTbl st slice
  let h := grpc_slice_hash hashFn staticTbl st slice
  match staticProbe hashFn staticTbl h c with
  | some idx =>
    let st' := match slice with
      | .interned id _ => (interned_slice_unref st id).getD st
      | _ => st
    (st', .staticRef idx)
  | none => (st, slice)

/-- One initial shard as set up by `grpc_slice_intern_init`
(slice_intern.c:266-273): zeroed bucket array of the initial capacity 8,
count 0. -/
def initShard : slice_shard :=
  ⟨List.replicate INITIAL_SHARD_CAPACITY [], 0, INITIAL_SHARD_CAPACITY⟩

/-- The dynamic-table state established by `grpc_slice_intern_init`: all 32
shards fresh. -/
def grpc_slice_intern_init : InternTable :=
  ⟨List.replicate SHARD_COUNT initShard, 0⟩

/-- The per-shard loop body of `grpc_slice_intern_shutdown`
(slice_intern.c:298-319), accumulated over the shard list: for a shard with
`count != 0`, emit one diagnostic dump per still-linked record (bucket order,
chain order) and, if the external abort-on-leaks flag is set, abort the
process on the spot (no further shard is visited).  Records are not freed.
Returns the emitted dumps (each the record's content bytes) and whether
`abort()` was reached. -/
def shutdownLoop (abortOnLeaks : Bool) :
    List slice_shard → List (List Nat) × Bool
  | [] => ([], false)
  | sh :: rest =>
    if sh.count ≠ 0 then
      let diags := sh.strs.flatten.map (fun s => s.content)
      if abortOnLeaks then (diags, true)
      else
        let r := shutdownLoop abortOnLeaks rest
        (diags ++ r.1, r.2)
    else shutdownLoop abortOnLeaks rest

/-- Model of `grpc_slice_intern_shutdown` (slice_intern.c:297-320).  Each
shard's mutex is destroyed (no sequential content); the observable behaviour
is the sequence of leak diagnostics and whether the abort-on-leaks policy
fired. -/
def grpc_slice_intern_shutdown (st : InternTable) (abortOnLeaks : Bool) :
    List (List Nat) × Bool :=
  shutdownLoop abortOnLeaks st.shards

/-- An operation at the public interface of the subsystem. -/
inductive Op where
  | intern (slice : grpc_slice)
  | unref (id : Nat)
deriving DecidableEq, Repr

/-- Apply one public operation. -/
def applyOp (st : InternTable) : Op → Option InternTable
  | .intern slice => some (grpc_slice_intern hashFn staticTbl st slice).state
  | .unref id => interned_slice_unref st id

/-- Run a sequence of public operations. -/
def runOps (st : InternTable) : List Op → Option InternTable
  | [] => some st
  | op :: rest =>
    match applyOp hashFn staticTbl st op with
    | some st' => runOps st' rest
    | none => none

/-- A slice that can legitimately be presented to the API against state `st`:
a static slice carries a valid table index, a transient slice is arbitrary,
and an interned slice's record address resolves with the slice's byte view
being exactly the record's inline storage (as `materialize` produces it). -/
def validSlice (st : InternTable) : grpc_slice → Prop
  | .staticRef idx => idx < staticTbl.length
  | .transient _ => True
  | .interned id view =>
    match findHandle st id with
    | some s => view = s.content
    | none => False

/-- Invariant of the static table build after the first `n` strings have been
inserted: the table has its fixed size, at most `n` slots are filled, and
every already-inserted string `k` sits, with its hash, at some probe offset
within the running `maxProbe` bound. -/
def BuildInv (n : Nat) (S : StaticHashState) : Prop :=
  S.tbl.length = 4 * staticTbl.length ∧
  S.tbl.countP (fun p => p.2 != staticTbl.length) ≤ n ∧
  ∀ k < n, ∃ j ≤ S.maxProbe,
    S.tbl.getD ((staticHv hashFn staticTbl k + j) % (4 * staticTbl.length))
      (0, 0) = (staticHv hashFn staticTbl k, k)

/-- Well-formedness of shard number `i`: the bucket array has `capacity`
entries, the capacity is positive, `count` counts the linked records, and
every linked record is in the shard and bucket its hash selects, caches the
hash of its own content, and has a positive count. -/
def shardWF (i : Nat) (sh : slice_shard) : Prop :=
  sh.strs.length = sh.capacity ∧
  0 < sh.capacity ∧
  sh.count = sh.strs.flatten.length ∧
  ∀ j < sh.strs.length, ∀ h ∈ sh.strs.getD j [],
    SHARD_IDX h.hash = i ∧ TABLE_IDX h.hash sh.capacity = j ∧
    h.hash = hashFn h.content ∧ 1 ≤ h.refcnt

/-- The global invariant of the dynamic intern table: 32 well-formed shards;
all linked records pairwise distinct in address and in content; every record
address below the allocation counter; and no linked record's content hits the
static table (static contents are answered before the dynamic table is ever
consulted). -/
def Inv (st : InternTable) : Prop :=
  st.shards.length = SHARD_COUNT ∧
  (∀ i < SHARD_COUNT, shardWF hashFn i (st.shards.getD i default)) ∧
  (allHandles st).Pairwise (fun a b => a.id ≠ b.id ∧ a.content ≠ b.content) ∧
  ∀ h ∈ allHandles st, h.id < st.next_id ∧
    staticProbe hashFn staticTbl h.hash h.content = none

instance (i : Nat) (sh : slice_shard) : Decidable (shardWF hashFn i sh) := by
  unfold shardWF; exact inferInstance

instance (st : InternTable) : Decidable (Inv hashFn staticTbl st) := by
  unfold Inv; exact inferInstance

instance (st : InternTable) (sl : grpc_slice) :
    Decidable (validSlice staticTbl st sl) := by
  cases sl with
  | staticRef idx =>
    exact (inferInstance : Decidable (idx < staticTbl.length))
  | transient c => exact (inferInstance : Decidable True)
  | interned id view =>
    show Decidable (match findHandle st id with
      | some s => view = s.content
      | none => False)
    cases findHandle st id with
    | some s => exact inferInstance
    | none => exact inferInstance

end Model

/-! ### Generic list helpers -/

theorem getD_set_self {α : Type _} (l : List α) {i : Nat} (a d : α)
    (hi : i < l.length) : (l.set i a).getD i d = a := by
  rw [List.getD_eq_getElem _ _ (by simpa using hi), List.getElem_set_self]

theorem getD_set_ne {α : Type _} (l : List α) {i j : Nat} (a d : α)
    (hij : i ≠ j) : (l.set i a).getD j d = l.getD j d := by
  by_cases hj : j < l.length
  · rw [List.getD_eq_getElem _ _ (by simpa using hj),
      List.getD_eq_getElem _ _ hj, List.getElem_set_ne hij]
  · rw [List.getD_eq_default _ _ (by simpa using Nat.le_of_not_lt hj),
      List.getD_eq_default _ _ (Nat.le_of_not_lt hj)]

theorem flatten_map_set {α β : Type _} (f : α → List β) (l : List α) {i : Nat}
    (hi : i < l.length) :
    ∃ A B, (∀ a, ((l.set i a).map f).flatten = A ++ f a ++ B) ∧
      (l.map f).flatten = A ++ f (l.get ⟨i, hi⟩) ++ B := by
  have hi' : i < (l.map f).length := by simpa using hi
  refine ⟨((l.map f).take i).flatten, ((l.map f).drop (i + 1)).flatten, ?_, ?_⟩
  · intro a
    rw [List.map_set, List.set_eq_take_cons_drop _ hi']
    simp
  · conv_lhs => rw [← List.take_append_drop i (l.map f),
      List.drop_eq_getElem_cons hi']
    simp

theorem pairwise_replace_mid {α : Type _} {R : α → α → Prop} {X Y : List α}
    {a a' : α} (hl : ∀ x, R x a → R x a') (hr : ∀ x, R a x → R a' x) :
    List.Pairwise R (X ++ a :: Y) → List.Pairwise R (X ++ a' :: Y) := by
  intro h
  rw [List.pairwise_append] at h ⊢
  obtain ⟨h1, h2, h3⟩ := h
  rw [List.pairwise_cons] at h2
  refine ⟨h1, List.pairwise_cons.2 ⟨fun b hb => hr b (h2.1 b hb), h2.2⟩, ?_⟩
  intro x hx b hb
  rcases List.mem_cons.1 hb with rfl | hb
  · exact hl x (h3 x hx a (List.mem_cons_self _ _))
  · exact h3 x hx b (List.mem_cons_of_mem _ hb)

theorem pairwise_insert_mid {α : Type _} {R : α → α → Prop} {X Y : List α}
    {a : α} (h : List.Pairwise R (X ++ Y)) (ha : ∀ x ∈ X, R x a)
    (hb : ∀ y ∈ Y, R a y) : List.Pairwise R (X ++ a :: Y) := by
  rw [List.pairwise_append] at h ⊢
  obtain ⟨h1, h2, h3⟩ := h
  refine ⟨h1, List.pairwise_cons.2 ⟨hb, h2⟩, ?_⟩
  intro x hx b hbm
  rcases List.mem_cons.1 hbm with rfl | hbm
  · exact ha x hx
  · exact h3 x hx b hbm

theorem find?_append_eq {α : Type _} (p : α → Bool) (X Y : List α) :
    List.find? p (X ++ Y) =
      match List.find? p X with
      | some a => some a
      | none => List.find? p Y := by
  induction X with
  | nil => simp
  | cons x X ih =>
    by_cases hx : p x
    · simp [List.find?_cons, hx]
    · simp only [List.cons_append, List.find?_cons, if_neg]
      cases hpx : p x with
      | true => exact absurd hpx hx
      | false => simpa using ih

/-! ### Index arithmetic -/

theorem SHARD_IDX_lt (h : Nat) : SHARD_IDX h < SHARD_COUNT := by
  have h1 : SHARD_IDX h ≤ (1 <<< LOG2_SHARD_COUNT) - 1 := Nat.and_le_right
  have h2 : (1 <<< LOG2_SHARD_COUNT) - 1 = 31 := by decide
  have h3 : SHARD_COUNT = 32 := by decide
  omega

theorem TABLE_IDX_lt (h : Nat) {cap : Nat} (hc : 0 < cap) :
    TABLE_IDX h cap < cap := Nat.mod_lt _ hc

/-! ### Chain-scan characterization -/

theorem eq_self_of_refcnt_zero {s : interned_slice_refcount}
    (h0 : s.refcnt = 0) : ({ s with refcnt := 0 }) = s := by
  cases s with
  | mk id rc hh cc => simp_all

theorem scanChain_casFailed (h : Nat) (c : List Nat) :
    ∀ chain, (scanChain h c chain).casFailed = false := by
  intro chain
  induction chain with
  | nil => rfl
  | cons s rest ih =>
    by_cases hm : s.hash = h ∧ s.content = c
    · by_cases hpre : s.refcnt = 0
      · have hcas : s.refcnt + 1 = 1 := by omega
        simp only [scanChain, if_pos hm, if_pos hpre, if_pos hcas]
        exact ih
      · simp only [scanChain, if_pos hm, if_neg hpre]
    · simp only [scanChain, if_neg hm]
      exact ih

theorem scanChain_none_iff (h : Nat) (c : List Nat) :
    ∀ chain, (scanChain h c chain).found = none ↔
      ∀ s ∈ chain, s.hash = h → s.content = c → s.refcnt = 0 := by
  intro chain
  induction chain with
  | nil => simp [scanChain]
  | cons s rest ih =>
    by_cases hm : s.hash = h ∧ s.content = c
    · by_cases hpre : s.refcnt = 0
      · have hcas : s.refcnt + 1 = 1 := by omega
        simp only [scanChain, if_pos hm, if_pos hpre, if_pos hcas]
        constructor
        · intro hn x hx hxh hxc
          rcases List.mem_cons.1 hx with rfl | hx
          · exact hpre
          · exact (ih.1 hn) x hx hxh hxc
        · intro hall
          exact ih.2 (fun x hx hxh hxc =>
            hall x (List.mem_cons_of_mem _ hx) hxh hxc)
      · simp only [scanChain, if_pos hm, if_neg hpre]
        constructor
        · intro hn; exact absurd hn (by simp)
        · intro hall
          exact absurd (hall s (List.mem_cons_self _ _) hm.1 hm.2) hpre
    · simp only [scanChain, if_neg hm]
      constructor
      · intro hn x hx hxh hxc
        rcases List.mem_cons.1 hx with rfl | hx
        · exact absurd ⟨hxh, hxc⟩ hm
        · exact (ih.1 hn) x hx hxh hxc
      · intro hall
        exact ih.2 (fun x hx hxh hxc =>
          hall x (List.mem_cons_of_mem _ hx) hxh hxc)

theorem scanChain_none_chain (h : Nat) (c : List Nat) :
    ∀ chain, (scanChain h c chain).found = none →
      (scanChain h c chain).chain = chain := by
  intro chain
  induction chain with
  | nil => intro _; rfl
  | cons s rest ih =>
    intro hn
    by_cases hm : s.hash = h ∧ s.content = c
    · by_cases hpre : s.refcnt = 0
      · have hcas : s.refcnt + 1 = 1 := by omega
        simp only [scanChain, if_pos hm, if_pos hpre, if_pos hcas] at hn ⊢
        rw [ih hn, eq_self_of_refcnt_zero hpre]
      · simp only [scanChain, if_pos hm, if_neg hpre] at hn
        exact absurd hn (by simp)
    · simp only [scanChain, if_neg hm] at hn ⊢
      rw [ih hn]

theorem scanChain_found_spec (h : Nat) (c : List Nat) :
    ∀ (l1 : List interned_slice_refcount) (s0 : interned_slice_refcount)
      (l2 : List interned_slice_refcount),
      (∀ x ∈ l1, x.hash = h → x.content = c → x.refcnt = 0) →
      s0.hash = h → s0.content = c → 1 ≤ s0.refcnt →
      scanChain h c (l1 ++ s0 :: l2) =
        ⟨l1 ++ { s0 with refcnt := s0.refcnt + 1 } :: l2,
         some { s0 with refcnt := s0.refcnt + 1 }, false⟩ := by
  intro l1
  induction l1 with
  | nil =>
    intro s0 l2 _ hh hc hrc
    have hpre : ¬ s0.refcnt = 0 := by omega
    simp only [List.nil_append, scanChain, if_pos (And.intro hh hc),
      if_neg hpre]
  | cons x l1 ih =>
    intro s0 l2 hdead hh hc hrc
    have hrec := ih s0 l2 (fun y hy => hdead y (List.mem_cons_of_mem _ hy))
      hh hc hrc
    by_cases hxm : x.hash = h ∧ x.content = c
    · have hx0 : x.refcnt = 0 := hdead x (List.mem_cons_self _ _) hxm.1 hxm.2
      have hcas : x.refcnt + 1 = 1 := by omega
      simp only [List.cons_append, scanChain, if_pos hxm, if_pos hx0,
        if_pos hcas, List.append_eq, hrec, eq_self_of_refcnt_zero hx0]
    · simp only [List.cons_append, scanChain, if_neg hxm, List.append_eq, hrec]

/-! ### Static hash table: build invariant and probe lemmas -/

theorem probe_hits (h s size : Nat) (hsize : 0 < size) (hs : s < size) :
    ∃ j < size, (h + j) % size = s := by
  refine ⟨(s + size - h % size) % size, Nat.mod_lt _ hsize, ?_⟩
  have hdm := Nat.div_add_mod h size
  have hml : h % size ≤ h := Nat.mod_le _ _
  have hms : h % size < size := Nat.mod_lt _ hsize
  have h3 : h + (s + size - h % size) = (s + size) + size * (h / size) := by
    omega
  rw [Nat.add_mod_mod, h3, Nat.add_mul_mod_self_left, Nat.add_mod_right,
    Nat.mod_eq_of_lt hs]

section StaticProofs

variable (hashFn : List Nat → Nat) (staticTbl : List (List Nat))

theorem buildInv_step {n : Nat} {S : StaticHashState}
    (hn : n < staticTbl.length) (hInv : BuildInv hashFn staticTbl n S) :
    BuildInv hashFn staticTbl (n + 1)
      (staticInsert staticTbl S (staticHv hashFn staticTbl n) n) := by
  obtain ⟨hlen, hcount, hslots⟩ := hInv
  have hsize : 0 < 4 * staticTbl.length := by omega
  cases hfind : (List.range (4 * staticTbl.length)).find?
      (fun j => (S.tbl.getD ((staticHv hashFn staticTbl n + j) %
        (4 * staticTbl.length)) (0, 0)).2 == staticTbl.length) with
  | none =>
    exfalso
    have hall := List.find?_eq_none.1 hfind
    have hfull : S.tbl.countP (fun p => p.2 != staticTbl.length)
        = S.tbl.length := by
      rw [List.countP_eq_length]
      intro p hp
      obtain ⟨i, hilt, hieq⟩ := List.mem_iff_getElem.1 hp
      obtain ⟨j, hj, hjs⟩ := probe_hits (staticHv hashFn staticTbl n) i
        (4 * staticTbl.length) hsize (by omega)
      have := hall j (List.mem_range.2 hj)
      rw [hjs, List.getD_eq_getElem _ _ hilt, hieq] at this
      simpa using this
    omega
  | some j0 =>
    have hj0lt : j0 < 4 * staticTbl.length :=
      List.mem_range.1 (List.mem_of_find?_eq_some hfind)
    have hj0pred := List.find?_some hfind
    have hslot0 : (S.tbl.getD ((staticHv hashFn staticTbl n + j0) %
        (4 * staticTbl.length)) (0, 0)).2 = staticTbl.length := by
      simpa using hj0pred
    have hslot0lt : (staticHv hashFn staticTbl n + j0) %
        (4 * staticTbl.length) < S.tbl.length := by
      rw [hlen]; exact Nat.mod_lt _ hsize
    have hred : staticInsert staticTbl S (staticHv hashFn staticTbl n) n =
        ⟨S.tbl.set ((staticHv hashFn staticTbl n + j0) %
          (4 * staticTbl.length)) (staticHv hashFn staticTbl n, n),
         max S.maxProbe j0⟩ := by
      simp only [staticInsert]
      rw [hfind]
    rw [hred]
    refine ⟨by simpa using hlen, ?_, ?_⟩
    · have hdecomp := List.set_eq_take_cons_drop
        ((staticHv hashFn staticTbl n, n)) hslot0lt
      have hgetelem : (S.tbl[(staticHv hashFn staticTbl n + j0) %
          (4 * staticTbl.length)]).2 = staticTbl.length := by
        rw [← List.getD_eq_getElem _ (0, 0) hslot0lt]
        exact hslot0
      have horig : S.tbl = S.tbl.take ((staticHv hashFn staticTbl n + j0) %
          (4 * staticTbl.length)) ++
          (S.tbl[(staticHv hashFn staticTbl n + j0) %
            (4 * staticTbl.length)]) ::
          S.tbl.drop ((staticHv hashFn staticTbl n + j0) %
            (4 * staticTbl.length) + 1) := by
        conv_lhs => rw [← List.take_append_drop ((staticHv hashFn staticTbl n
          + j0) % (4 * staticTbl.length)) S.tbl,
          List.drop_eq_getElem_cons hslot0lt]
      rw [hdecomp]
      conv_lhs at hcount => rw [horig]
      rw [List.countP_append, List.countP_cons] at hcount ⊢
      have hps : ((S.tbl[(staticHv hashFn staticTbl n + j0) %
          (4 * staticTbl.length)]).2 != staticTbl.length) = false := by
        simp [hgetelem]
      have hpn : ((n : Nat) != staticTbl.length) = true := by
        simp; omega
      simp only [hps, hpn] at hcount ⊢
      simp at hcount ⊢
      omega
    · intro k hk
      rcases Nat.lt_succ_iff_lt_or_eq.1 hk with hk' | rfl
      · obtain ⟨j, hj, hslot⟩ := hslots k hk'
        refine ⟨j, le_trans hj (le_max_left _ _), ?_⟩
        have hne : (staticHv hashFn staticTbl n + j0) % (4 * staticTbl.length)
            ≠ (staticHv hashFn staticTbl k + j) % (4 * staticTbl.length) := by
          intro he
          rw [← he] at hslot
          rw [hslot] at hslot0
          simp at hslot0
          omega
        rw [getD_set_ne _ _ _ hne]
        exact hslot
      · refine ⟨j0, le_max_right _ _, ?_⟩
        exact getD_set_self _ _ _ hslot0lt

theorem buildInv_build :
    BuildInv hashFn staticTbl staticTbl.length
      (buildStatic hashFn staticTbl) := by
  have key : ∀ m ≤ staticTbl.length, BuildInv hashFn staticTbl m
      ((List.range m).foldl
        (fun S i => staticInsert staticTbl S (staticHv hashFn staticTbl i) i)
        ⟨List.replicate (4 * staticTbl.length) (0, staticTbl.length), 0⟩) := by
    intro m
    induction m with
    | zero =>
      intro _
      refine ⟨by simp, ?_, fun k hk => absurd hk (by omega)⟩
      have : (List.replicate (4 * staticTbl.length)
          ((0 : Nat), staticTbl.length)).countP
          (fun p => p.2 != staticTbl.length) = 0 := by
        rw [List.countP_eq_zero]
        intro a ha
        rw [List.eq_of_mem_replicate ha]
        simp
      simp only [List.foldl_nil, List.range_zero]
      rw [this]
    | succ m ih =>
      intro hm
      rw [List.range_succ, List.foldl_append, List.foldl_cons, List.foldl_nil]
      exact buildInv_step hashFn staticTbl (by omega) (ih (by omega))
  exact key _ le_rfl

theorem static_slot_exists {i : Nat} (hi : i < staticTbl.length) :
    ∃ j ≤ (buildStatic hashFn staticTbl).maxProbe,
      (buildStatic hashFn staticTbl).tbl.getD
        ((staticHv hashFn staticTbl i + j) % (4 * staticTbl.length)) (0, 0)
        = (staticHv hashFn staticTbl i, i) :=
  (buildInv_build hashFn staticTbl).2.2 i hi

theorem staticProbe_sound {h : Nat} {c : List Nat} {k : Nat} :
    staticProbe hashFn staticTbl h c = some k →
      k < staticTbl.length ∧ staticTbl.getD k [] = c := by
  intro hk
  simp only [staticProbe] at hk
  split at hk
  · next j hfind =>
    have hpred := List.find?_some hfind
    simp only [Bool.and_eq_true, beq_iff_eq, decide_eq_true_eq] at hpred
    have hkval : ((buildStatic hashFn staticTbl).tbl.getD
        (((h + j) % UINT32_MOD) % (4 * staticTbl.length)) (0, 0)).2 = k :=
      Option.some.inj hk
    exact ⟨hkval ▸ hpred.1.2, hkval ▸ hpred.2⟩
  · exact absurd hk (by simp)

theorem staticProbe_complete {i : Nat} (hi : i < staticTbl.length)
    (hsmall : staticHv hashFn staticTbl i
      + (buildStatic hashFn staticTbl).maxProbe < UINT32_MOD) :
    ∃ k, staticProbe hashFn staticTbl (staticHv hashFn staticTbl i)
        (staticTbl.getD i []) = some k ∧ k < staticTbl.length ∧
      staticTbl.getD k [] = staticTbl.getD i [] := by
  obtain ⟨j, hj, hslot⟩ := static_slot_exists hashFn staticTbl hi
  have hwrap : (staticHv hashFn staticTbl i + j) % UINT32_MOD
      = staticHv hashFn staticTbl i + j :=
    Nat.mod_eq_of_lt (by omega)
  have hslot' : (buildStatic hashFn staticTbl).tbl.getD
      (((staticHv hashFn staticTbl i + j) % UINT32_MOD)
        % (4 * staticTbl.length)) (0, 0)
      = (staticHv hashFn staticTbl i, i) := by
    rw [hwrap]; exact hslot
  have hsome : ∃ k, staticProbe hashFn staticTbl (staticHv hashFn staticTbl i)
      (staticTbl.getD i []) = some k := by
    simp only [staticProbe]
    split
    · next j' hfd => exact ⟨_, rfl⟩
    · next hfd =>
      exfalso
      have hall := List.find?_eq_none.1 hfd
      have hj' := hall j (List.mem_range.2 (by omega))
      apply hj'
      rw [hslot']
      simp [hi]
  obtain ⟨k, hk⟩ := hsome
  obtain ⟨hk1, hk2⟩ := staticProbe_sound hashFn staticTbl hk
  exact ⟨k, hk, hk1, hk2⟩

theorem staticProbe_none_of_not_mem {h : Nat} {c : List Nat}
    (hc : c ∉ staticTbl) : staticProbe hashFn staticTbl h c = none := by
  cases hp : staticProbe hashFn staticTbl h c with
  | none => rfl
  | some k =>
    obtain ⟨hk, hkc⟩ := staticProbe_sound hashFn staticTbl hp
    exact absurd (hkc ▸ (List.getD_eq_getElem staticTbl [] hk ▸
      List.getElem_mem hk)) hc

theorem staticProbe_mem_of_some {h : Nat} {c : List Nat} {k : Nat}
    (hp : staticProbe hashFn staticTbl h c = some k) : c ∈ staticTbl := by
  obtain ⟨hk, hkc⟩ := staticProbe_sound hashFn staticTbl hp
  exact hkc ▸ (List.getD_eq_getElem staticTbl [] hk ▸ List.getElem_mem hk)

theorem staticProbe_self {i : Nat} (hi : i < staticTbl.length)
    (hnd : staticTbl.Nodup)
    (hsmall : staticHv hashFn staticTbl i
      + (buildStatic hashFn staticTbl).maxProbe < UINT32_MOD) :
    staticProbe hashFn staticTbl (staticHv hashFn staticTbl i)
      (staticTbl.getD i []) = some i := by
  obtain ⟨k, hk, hklt, hkc⟩ :=
    staticProbe_complete hashFn staticTbl hi hsmall
  have : k = i := by
    rw [List.getD_eq_getElem _ _ hklt, List.getD_eq_getElem _ _ hi] at hkc
    exact (List.Nodup.getElem_inj_iff hnd).1 hkc
  exact this ▸ hk

end StaticProofs

/-! ### State decomposition and invariant access -/

theorem allHandles_shard_decomp (st : InternTable) {i : Nat}
    (hi : i < st.shards.length) :
    ∃ A B, (∀ sh' n, allHandles ⟨st.shards.set i sh', n⟩
        = A ++ sh'.strs.flatten ++ B) ∧
      allHandles st = A ++ (st.shards.getD i default).strs.flatten ++ B := by
  obtain ⟨A, B, h1, h2⟩ :=
    flatten_map_set (fun sh => sh.strs.flatten) st.shards hi
  refine ⟨A, B, fun sh' n => h1 sh', ?_⟩
  rw [List.getD_eq_getElem _ _ hi]
  simpa using h2

theorem flatten_chain_decomp {α : Type _} (strs : List (List α)) {j : Nat}
    (hj : j < strs.length) :
    ∃ C D, (∀ ch, (strs.set j ch).flatten = C ++ ch ++ D) ∧
      strs.flatten = C ++ strs.getD j [] ++ D := by
  obtain ⟨C, D, h1, h2⟩ := flatten_map_set (fun x => x) strs hj
  refine ⟨C, D, ?_, ?_⟩
  · intro ch
    have := h1 ch
    simpa using this
  · rw [List.getD_eq_getElem _ _ hj]
    simpa using h2

theorem mem_flatten_of_mem_getD {α : Type _} (strs : List (List α)) {j : Nat}
    (hj : j < strs.length) {x : α} (hx : x ∈ strs.getD j []) :
    x ∈ strs.flatten := by
  refine List.mem_flatten.2 ⟨strs.getD j [], ?_, hx⟩
  rw [List.getD_eq_getElem _ _ hj]
  exact List.getElem_mem hj

theorem sublist_append_middle {α : Type _} (A B M : List α) :
    M.Sublist (A ++ M ++ B) := by
  rw [List.append_assoc]
  exact (List.sublist_append_left M B).trans (List.sublist_append_right A _)

theorem mem_allHandles_iff {st : InternTable} {x : interned_slice_refcount} :
    x ∈ allHandles st ↔ ∃ sh ∈ st.shards, ∃ ch ∈ sh.strs, x ∈ ch := by
  unfold allHandles
  simp only [List.mem_flatten, List.mem_map]
  constructor
  · rintro ⟨l, ⟨sh, hsh, rfl⟩, hx⟩
    obtain ⟨ch, hch, hxc⟩ := List.mem_flatten.1 hx
    exact ⟨sh, hsh, ch, hch, hxc⟩
  · rintro ⟨sh, hsh, ch, hch, hxc⟩
    exact ⟨sh.strs.flatten, ⟨sh, hsh, rfl⟩, List.mem_flatten.2 ⟨ch, hch, hxc⟩⟩

section InvLemmas

variable (hashFn : List Nat → Nat) (staticTbl : List (List Nat))

theorem Inv_located {st : InternTable} (hInv : Inv hashFn staticTbl st)
    {x : interned_slice_refcount} (hx : x ∈ allHandles st) :
    x ∈ (st.shards.getD (SHARD_IDX x.hash) default).strs.getD
      (TABLE_IDX x.hash
        (st.shards.getD (SHARD_IDX x.hash) default).capacity) [] := by
  obtain ⟨hlen, hwf, _, _⟩ := hInv
  obtain ⟨sh, hsh, ch, hch, hxc⟩ := mem_allHandles_iff.1 hx
  obtain ⟨i, hilt, hieq⟩ := List.mem_iff_getElem.1 hsh
  obtain ⟨j, hjlt, hjeq⟩ := List.mem_iff_getElem.1 hch
  have hshD : st.shards.getD i default = sh := by
    rw [List.getD_eq_getElem _ _ hilt, hieq]
  have hchD : sh.strs.getD j [] = ch := by
    rw [List.getD_eq_getElem _ _ hjlt, hjeq]
  have hwfi := hwf i (by omega)
  rw [hshD] at hwfi
  obtain ⟨_, _, _, hbuckets⟩ := hwfi
  obtain ⟨hsi, hti, _, _⟩ := hbuckets j hjlt x (hchD ▸ hxc)
  rw [hsi, hshD, hti, hchD]
  exact hxc

theorem Inv_handle_facts {st : InternTable} (hInv : Inv hashFn staticTbl st)
    {x : interned_slice_refcount} (hx : x ∈ allHandles st) :
    x.hash = hashFn x.content ∧ 1 ≤ x.refcnt ∧ x.id < st.next_id ∧
      staticProbe hashFn staticTbl x.hash x.content = none := by
  obtain ⟨hlen, hwf, _, hglob⟩ := hInv
  obtain ⟨sh, hsh, ch, hch, hxc⟩ := mem_allHandles_iff.1 hx
  obtain ⟨i, hilt, hieq⟩ := List.mem_iff_getElem.1 hsh
  obtain ⟨j, hjlt, hjeq⟩ := List.mem_iff_getElem.1 hch
  have hshD : st.shards.getD i default = sh := by
    rw [List.getD_eq_getElem _ _ hilt, hieq]
  have hchD : sh.strs.getD j [] = ch := by
    rw [List.getD_eq_getElem _ _ hjlt, hjeq]
  have hwfi := hwf i (by omega)
  rw [hshD] at hwfi
  obtain ⟨_, _, _, hbuckets⟩ := hwfi
  obtain ⟨_, _, hh, hrc⟩ := hbuckets j hjlt x (hchD ▸ hxc)
  obtain ⟨hid, hsp⟩ := hglob x hx
  exact ⟨hh, hrc, hid, hsp⟩

theorem Inv_chain_pairwise {st : InternTable} (hInv : Inv hashFn staticTbl st)
    {i j : Nat} (hi : i < st.shards.length)
    (hj : j < (st.shards.getD i default).strs.length) :
    ((st.shards.getD i default).strs.getD j []).Pairwise
      (fun a b => a.id ≠ b.id ∧ a.content ≠ b.content) := by
  obtain ⟨_, _, hpw, _⟩ := hInv
  have hsub : ((st.shards.getD i default).strs.getD j []).Sublist
      (allHandles st) := by
    obtain ⟨A, B, _, h2⟩ := allHandles_shard_decomp st hi
    obtain ⟨C, D, _, h4⟩ := flatten_chain_decomp
      (st.shards.getD i default).strs hj
    rw [h2, h4]
    exact (sublist_append_middle C D _).trans (sublist_append_middle A B _)
  exact List.Pairwise.sublist hsub hpw

end InvLemmas

/-! ### Shard growth -/

theorem flatten_replicate_nil {α : Type _} :
    ∀ n, (List.replicate n ([] : List α)).flatten = [] := by
  intro n
  induction n with
  | zero => rfl
  | succ n ih => simp [List.replicate_succ, ih]

theorem push_flatten_perm (cap : Nat) (hcap : 0 < cap)
    (tab : List (List interned_slice_refcount)) (hlen : tab.length = cap)
    (s : interned_slice_refcount) :
    (tab.set (TABLE_IDX s.hash cap)
      (s :: tab.getD (TABLE_IDX s.hash cap) [])).flatten.Perm
      (s :: tab.flatten) := by
  have hidx : TABLE_IDX s.hash cap < tab.length := by
    rw [hlen]; exact TABLE_IDX_lt _ hcap
  obtain ⟨C, D, h1, h2⟩ := flatten_chain_decomp tab hidx
  rw [h1, h2]
  have e1 : C ++ (s :: tab.getD (TABLE_IDX s.hash cap) []) ++ D
      = C ++ s :: (tab.getD (TABLE_IDX s.hash cap) [] ++ D) := by simp
  have e2 : C ++ tab.getD (TABLE_IDX s.hash cap) [] ++ D
      = C ++ (tab.getD (TABLE_IDX s.hash cap) [] ++ D) := by simp
  rw [e1, e2]
  exact List.perm_middle

theorem chainFold_spec (cap : Nat) (hcap : 0 < cap) :
    ∀ (chain : List interned_slice_refcount)
      (tab : List (List interned_slice_refcount)), tab.length = cap →
      (chain.foldl (fun tab s => tab.set (TABLE_IDX s.hash cap)
        (s :: tab.getD (TABLE_IDX s.hash cap) [])) tab).length = cap ∧
      (chain.foldl (fun tab s => tab.set (TABLE_IDX s.hash cap)
        (s :: tab.getD (TABLE_IDX s.hash cap) [])) tab).flatten.Perm
        (chain ++ tab.flatten) := by
  intro chain
  induction chain with
  | nil => intro tab hlen; exact ⟨hlen, by simp⟩
  | cons s chain ih =>
    intro tab hlen
    rw [List.foldl_cons]
    have hlen' : (tab.set (TABLE_IDX s.hash cap)
        (s :: tab.getD (TABLE_IDX s.hash cap) [])).length = cap := by
      simpa using hlen
    obtain ⟨hl2, hp2⟩ := ih _ hlen'
    refine ⟨hl2, ?_⟩
    have hstep := push_flatten_perm cap hcap tab hlen s
    have h4 := hp2.trans (List.Perm.append_left chain hstep)
    have h5 := h4.trans List.perm_middle
    simpa using h5

theorem bucketsFold_spec (cap : Nat) (hcap : 0 < cap) :
    ∀ (chains : List (List interned_slice_refcount))
      (tab : List (List interned_slice_refcount)), tab.length = cap →
      (chains.foldl (fun tab chain => chain.foldl
        (fun tab s => tab.set (TABLE_IDX s.hash cap)
          (s :: tab.getD (TABLE_IDX s.hash cap) [])) tab) tab).length = cap ∧
      (chains.foldl (fun tab chain => chain.foldl
        (fun tab s => tab.set (TABLE_IDX s.hash cap)
          (s :: tab.getD (TABLE_IDX s.hash cap) [])) tab) tab).flatten.Perm
        (chains.flatten ++ tab.flatten) := by
  intro chains
  induction chains with
  | nil => intro tab hlen; exact ⟨hlen, by simp⟩
  | cons ch chains ih =>
    intro tab hlen
    rw [List.foldl_cons]
    obtain ⟨hl1, hp1⟩ := chainFold_spec cap hcap ch tab hlen
    obtain ⟨hl2, hp2⟩ := ih _ hl1
    refine ⟨hl2, ?_⟩
    have h3 := hp2.trans (List.Perm.append_left chains.flatten hp1)
    have h5 : (chains.flatten ++ (ch ++ tab.flatten)).Perm
        ((ch :: chains).flatten ++ tab.flatten) := by
      have h6 := (@List.perm_append_comm _ chains.flatten ch).append_right
        tab.flatten
      simpa [List.append_assoc] using h6
    exact h3.trans h5

theorem bucketsFold_bucket (cap : Nat) (hcap : 0 < cap) :
    ∀ (chains : List (List interned_slice_refcount))
      (tab : List (List interned_slice_refcount)), tab.length = cap →
      (∀ j < cap, ∀ x ∈ tab.getD j [], TABLE_IDX x.hash cap = j) →
      ∀ j < cap, ∀ x ∈ (chains.foldl (fun tab chain => chain.foldl
        (fun tab s => tab.set (TABLE_IDX s.hash cap)
          (s :: tab.getD (TABLE_IDX s.hash cap) [])) tab) tab).getD j [],
        TABLE_IDX x.hash cap = j := by
  have step : ∀ (s : interned_slice_refcount)
      (tab : List (List interned_slice_refcount)), tab.length = cap →
      (∀ j < cap, ∀ x ∈ tab.getD j [], TABLE_IDX x.hash cap = j) →
      ∀ j < cap, ∀ x ∈ (tab.set (TABLE_IDX s.hash cap)
        (s :: tab.getD (TABLE_IDX s.hash cap) [])).getD j [],
        TABLE_IDX x.hash cap = j := by
    intro s tab hlen hbk j hj x hx
    by_cases hji : j = TABLE_IDX s.hash cap
    · subst hji
      rw [getD_set_self _ _ _ (by rw [hlen]; exact TABLE_IDX_lt _ hcap)] at hx
      rcases List.mem_cons.1 hx with rfl | hx
      · rfl
      · exact hbk _ hj x hx
    · rw [getD_set_ne _ _ _ (fun he => hji he.symm)] at hx
      exact hbk _ hj x hx
  have chainstep : ∀ (chain : List interned_slice_refcount)
      (tab : List (List interned_slice_refcount)), tab.length = cap →
      (∀ j < cap, ∀ x ∈ tab.getD j [], TABLE_IDX x.hash cap = j) →
      (∀ j < cap, ∀ x ∈ (chain.foldl (fun tab s =>
          tab.set (TABLE_IDX s.hash cap)
            (s :: tab.getD (TABLE_IDX s.hash cap) [])) tab).getD j [],
        TABLE_IDX x.hash cap = j) := by
    intro chain
    induction chain with
    | nil => intro tab _ hbk; exact hbk
    | cons s chain ih =>
      intro tab hlen hbk
      rw [List.foldl_cons]
      exact ih _ (by simpa using hlen) (step s tab hlen hbk)
  intro chains
  induction chains with
  | nil => intro tab _ hbk; exact hbk
  | cons ch chains ih =>
    intro tab hlen hbk
    rw [List.foldl_cons]
    exact ih _ (chainFold_spec cap hcap ch tab hlen).1 (chainstep ch tab hlen hbk)

theorem grow_shard_spec (sh : slice_shard) (hcap : 0 < sh.capacity) :
    (grow_shard sh).capacity = sh.capacity * 2 ∧
    (grow_shard sh).count = sh.count ∧
    (grow_shard sh).strs.length = sh.capacity * 2 ∧
    (grow_shard sh).strs.flatten.Perm sh.strs.flatten ∧
    ∀ j < sh.capacity * 2, ∀ x ∈ (grow_shard sh).strs.getD j [],
      TABLE_IDX x.hash (sh.capacity * 2) = j := by
  have hcap2 : 0 < sh.capacity * 2 := by omega
  have hinit : (List.replicate (sh.capacity * 2)
      ([] : List interned_slice_refcount)).length = sh.capacity * 2 := by simp
  obtain ⟨hl, hp⟩ := bucketsFold_spec (sh.capacity * 2) hcap2 sh.strs _ hinit
  have hbk := bucketsFold_bucket (sh.capacity * 2) hcap2 sh.strs _ hinit
    (by
      intro j hj x hx
      rw [List.getD_eq_getElem _ _ (by simpa using hj),
        List.getElem_replicate] at hx
      exact absurd hx (List.not_mem_nil x))
  refine ⟨rfl, rfl, hl, ?_, hbk⟩
  have := hp
  rw [flatten_replicate_nil, List.append_nil] at this
  exact this

/-! ### Characterization of `grpc_slice_intern` under the invariant -/

section InternChar

variable (hashFn : List Nat → Nat) (staticTbl : List (List Nat))

theorem intern_found {st : InternTable} {sl : grpc_slice} {c : List Nat}
    {s0 : interned_slice_refcount}
    (hInv : Inv hashFn staticTbl st)
    (hns : grpc_is_static_metadata_string sl = false)
    (hcont : sliceContent staticTbl st sl = c)
    (hhash : grpc_slice_hash hashFn staticTbl st sl = hashFn c)
    (hs0 : s0 ∈ allHandles st) (hs0c : s0.content = c) :
    (grpc_slice_intern hashFn staticTbl st sl).slice
        = .interned s0.id s0.content ∧
    (grpc_slice_intern hashFn staticTbl st sl).tookLock = true ∧
    (grpc_slice_intern hashFn staticTbl st sl).allocated = false ∧
    (grpc_slice_intern hashFn staticTbl st sl).state.next_id = st.next_id ∧
    Inv hashFn staticTbl (grpc_slice_intern hashFn staticTbl st sl).state ∧
    findHandle (grpc_slice_intern hashFn staticTbl st sl).state s0.id
        = some { s0 with refcnt := s0.refcnt + 1 } ∧
    (∀ id', id' ≠ s0.id →
      findHandle (grpc_slice_intern hashFn staticTbl st sl).state id'
        = findHandle st id') ∧
    (∀ i, ((grpc_slice_intern hashFn staticTbl st sl).state.shards.getD i
        default).count = (st.shards.getD i default).count ∧
      ((grpc_slice_intern hashFn staticTbl st sl).state.shards.getD i
        default).capacity = (st.shards.getD i default).capacity) := by
  obtain ⟨hh0, hrc0, hid0, hsp0⟩ := Inv_handle_facts hashFn staticTbl hInv hs0
  have hh0c : s0.hash = hashFn c := by rw [hh0, hs0c]
  have hsp : staticProbe hashFn staticTbl (hashFn c) c = none := by
    rw [← hh0c, ← hs0c]; exact hsp0
  have hlen32 : st.shards.length = SHARD_COUNT := hInv.1
  have hSI : SHARD_IDX (hashFn c) < st.shards.length := by
    rw [hlen32]; exact SHARD_IDX_lt _
  have hwf := hInv.2.1 (SHARD_IDX (hashFn c)) (SHARD_IDX_lt _)
  obtain ⟨hsl, hcp, hcnt, hbuckets⟩ := hwf
  have hBI : TABLE_IDX (hashFn c)
      (st.shards.getD (SHARD_IDX (hashFn c)) default).capacity <
      (st.shards.getD (SHARD_IDX (hashFn c)) default).strs.length := by
    rw [hsl]; exact TABLE_IDX_lt _ hcp
  have hs0chain : s0 ∈ (st.shards.getD (SHARD_IDX (hashFn c)) default).strs.getD
      (TABLE_IDX (hashFn c)
        (st.shards.getD (SHARD_IDX (hashFn c)) default).capacity) [] := by
    have := Inv_located hashFn staticTbl hInv hs0
    rw [hh0c] at this
    exact this
  have hpwchain := Inv_chain_pairwise hashFn staticTbl hInv hSI hBI
  obtain ⟨l1, l2, hchain⟩ := List.append_of_mem hs0chain
  have hl1nm : ∀ x ∈ l1, x.hash = hashFn c → x.content = c → x.refcnt = 0 := by
    intro x hx _ hxc
    rw [hchain] at hpwchain
    have := (List.pairwise_append.1 hpwchain).2.2 x hx s0
      (List.mem_cons_self _ _)
    exact absurd (hxc.trans hs0c.symm) this.2
  have hscan : scanChain (hashFn c) c
      ((st.shards.getD (SHARD_IDX (hashFn c)) default).strs.getD
        (TABLE_IDX (hashFn c)
          (st.shards.getD (SHARD_IDX (hashFn c)) default).capacity) [])
      = ⟨l1 ++ { s0 with refcnt := s0.refcnt + 1 } :: l2,
         some { s0 with refcnt := s0.refcnt + 1 }, false⟩ := by
    rw [hchain]
    exact scanChain_found_spec (hashFn c) c l1 s0 l2 hl1nm hh0c hs0c hrc0
  have hred : grpc_slice_intern hashFn staticTbl st sl =
      ⟨⟨st.shards.set (SHARD_IDX (hashFn c))
          ⟨(st.shards.getD (SHARD_IDX (hashFn c)) default).strs.set
              (TABLE_IDX (hashFn c)
                (st.shards.getD (SHARD_IDX (hashFn c)) default).capacity)
              (l1 ++ { s0 with refcnt := s0.refcnt + 1 } :: l2),
            (st.shards.getD (SHARD_IDX (hashFn c)) default).count,
            (st.shards.getD (SHARD_IDX (hashFn c)) default).capacity⟩,
        st.next_id⟩,
      .interned s0.id s0.content, true, false⟩ := by
    simp only [grpc_slice_intern, hns, Bool.false_eq_true, if_false, hcont,
      hhash, hsp, hscan]
  obtain ⟨A, B, hAB1, hAB2⟩ := allHandles_shard_decomp st hSI
  obtain ⟨C, D, hCD1, hCD2⟩ := flatten_chain_decomp
    (st.shards.getD (SHARD_IDX (hashFn c)) default).strs hBI
  have hold : allHandles st
      = (A ++ C ++ l1) ++ s0 :: (l2 ++ D ++ B) := by
    rw [hAB2, hCD2, hchain]
    simp [List.append_assoc]
  have hnew : allHandles (grpc_slice_intern hashFn staticTbl st sl).state
      = (A ++ C ++ l1) ++ { s0 with refcnt := s0.refcnt + 1 }
        :: (l2 ++ D ++ B) := by
    rw [hred]
    have := hAB1 ⟨(st.shards.getD (SHARD_IDX (hashFn c)) default).strs.set
        (TABLE_IDX (hashFn c)
          (st.shards.getD (SHARD_IDX (hashFn c)) default).capacity)
        (l1 ++ { s0 with refcnt := s0.refcnt + 1 } :: l2),
      (st.shards.getD (SHARD_IDX (hashFn c)) default).count,
      (st.shards.getD (SHARD_IDX (hashFn c)) default).capacity⟩ st.next_id
    rw [this, hCD1]
    simp [List.append_assoc]
  have hpwall := hInv.2.2.1
  have hpwPQ : ((A ++ C ++ l1) ++ s0 :: (l2 ++ D ++ B)).Pairwise
      (fun a b => a.id ≠ b.id ∧ a.content ≠ b.content) := hold ▸ hpwall
  have hPids : ∀ x ∈ A ++ C ++ l1, x.id ≠ s0.id :=
    fun x hx => ((List.pairwise_append.1 hpwPQ).2.2 x hx s0
      (List.mem_cons_self _ _)).1
  have hQids : ∀ y ∈ l2 ++ D ++ B, s0.id ≠ y.id :=
    fun y hy => ((List.pairwise_cons.1
      (List.pairwise_append.1 hpwPQ).2.1).1 y hy).1
  refine ⟨by rw [hred], by rw [hred], by rw [hred], by rw [hred], ?_, ?_, ?_, ?_⟩
  · -- Inv preserved
    refine ⟨by rw [hred]; simpa using hlen32, ?_, ?_, ?_⟩
    · intro i hi
      rw [hred]
      by_cases hiSI : i = SHARD_IDX (hashFn c)
      · subst hiSI
        rw [getD_set_self _ _ _ hSI]
        refine ⟨by simpa using hsl, hcp, ?_, ?_⟩
        · have hlencongr : (l1 ++ { s0 with refcnt := s0.refcnt + 1 }
              :: l2).length = (l1 ++ s0 :: l2).length := by simp
          rw [hcnt]
          obtain ⟨C', D', hCD1', hCD2'⟩ := flatten_chain_decomp
            (st.shards.getD (SHARD_IDX (hashFn c)) default).strs hBI
          rw [hCD1', hCD2', hchain]
          simp
        · intro j hj x hx
          simp only [List.length_set] at hj
          by_cases hjBI : j = TABLE_IDX (hashFn c)
              (st.shards.getD (SHARD_IDX (hashFn c)) default).capacity
          · subst hjBI
            rw [getD_set_self _ _ _ hBI] at hx
            have hmem0 : ∀ y, y ∈ (st.shards.getD (SHARD_IDX (hashFn c))
                default).strs.getD (TABLE_IDX (hashFn c)
                  (st.shards.getD (SHARD_IDX (hashFn c)) default).capacity)
                [] → SHARD_IDX y.hash = SHARD_IDX (hashFn c) ∧
                TABLE_IDX y.hash (st.shards.getD (SHARD_IDX (hashFn c))
                  default).capacity = TABLE_IDX (hashFn c)
                  (st.shards.getD (SHARD_IDX (hashFn c)) default).capacity ∧
                y.hash = hashFn y.content ∧ 1 ≤ y.refcnt := by
              intro y hy
              exact hbuckets _ hBI y hy
            rcases List.mem_append.1 hx with hx1 | hx2
            · exact hmem0 x (by rw [hchain]; exact List.mem_append_left _ hx1)
            · rcases List.mem_cons.1 hx2 with rfl | hx3
              · have := hmem0 s0 hs0chain
                exact ⟨this.1, this.2.1, this.2.2.1,
                  Nat.le_add_left 1 s0.refcnt⟩
              · refine hmem0 x ?_
                rw [hchain]
                exact List.mem_append_right _ (List.mem_cons_of_mem _ hx3)
          · rw [getD_set_ne _ _ _ (fun he => hjBI he.symm)] at hx
            exact hbuckets j hj x hx
      · rw [getD_set_ne _ _ _ (fun he => hiSI he.symm)]
        exact hInv.2.1 i hi
    · rw [hnew]
      refine pairwise_replace_mid ?_ ?_ hpwPQ
      · intro x hx
        exact ⟨hx.1, hx.2⟩
      · intro x hx
        exact ⟨hx.1, hx.2⟩
    · intro x hx
      rw [hnew] at hx
      rw [hred]
      rcases List.mem_append.1 hx with hx1 | hx2
      · have : x ∈ allHandles st := by
          rw [hold]; exact List.mem_append_left _ hx1
        exact hInv.2.2.2 x this
      · rcases List.mem_cons.1 hx2 with rfl | hx3
        · constructor
          · simpa using hid0
          · simpa using hsp0
        · have : x ∈ allHandles st := by
            rw [hold]
            exact List.mem_append_right _ (List.mem_cons_of_mem _ hx3)
          exact hInv.2.2.2 x this
  · -- findHandle of s0.id
    unfold findHandle
    rw [hnew, find?_append_eq]
    have hnone : List.find? (fun h => h.id == s0.id) (A ++ C ++ l1)
        = none := by
      rw [List.find?_eq_none]
      intro x hx
      simpa using hPids x hx
    rw [hnone, List.find?_cons]
    simp
  · -- findHandle of other ids
    intro id' hid'
    unfold findHandle
    rw [hnew, hold]
    generalize A ++ C ++ l1 = P
    generalize l2 ++ D ++ B = Q
    rw [find?_append_eq, find?_append_eq]
    cases hfP : List.find? (fun h => h.id == id') P with
    | some a => rfl
    | none =>
      rw [List.find?_cons, List.find?_cons]
      have h1 : (({ s0 with refcnt := s0.refcnt + 1 }
          : interned_slice_refcount).id == id') = false := by
        simpa using fun he => hid' he.symm
      have h2 : (s0.id == id') = false := by
        simpa using fun he => hid' he.symm
      simp [h1, h2]
  · -- counts and capacities
    intro i
    rw [hred]
    by_cases hiSI : i = SHARD_IDX (hashFn c)
    · subst hiSI
      rw [getD_set_self _ _ _ hSI]
      exact ⟨rfl, rfl⟩
    · rw [getD_set_ne _ _ _ (fun he => hiSI he.symm)]
      exact ⟨rfl, rfl⟩

theorem intern_create {st : InternTable} {sl : grpc_slice} {c : List Nat}
    (hInv : Inv hashFn staticTbl st)
    (hns : grpc_is_static_metadata_string sl = false)
    (hcont : sliceContent staticTbl st sl = c)
    (hhash : grpc_slice_hash hashFn staticTbl st sl = hashFn c)
    (hnomem : ∀ x ∈ allHandles st, x.content ≠ c)
    (hsp : staticProbe hashFn staticTbl (hashFn c) c = none) :
    (grpc_slice_intern hashFn staticTbl st sl).slice
        = .interned st.next_id c ∧
    (grpc_slice_intern hashFn staticTbl st sl).tookLock = true ∧
    (grpc_slice_intern hashFn staticTbl st sl).allocated = true ∧
    (grpc_slice_intern hashFn staticTbl st sl).state.next_id
        = st.next_id + 1 ∧
    Inv hashFn staticTbl (grpc_slice_intern hashFn staticTbl st sl).state ∧
    (allHandles (grpc_slice_intern hashFn staticTbl st sl).state).Perm
      (⟨st.next_id, 1, hashFn c, c⟩ :: allHandles st) := by
  have hlen32 : st.shards.length = SHARD_COUNT := hInv.1
  have hSI : SHARD_IDX (hashFn c) < st.shards.length := by
    rw [hlen32]; exact SHARD_IDX_lt _
  obtain ⟨hsl, hcp, hcnt, hbuckets⟩ := hInv.2.1 (SHARD_IDX (hashFn c))
    (SHARD_IDX_lt _)
  have hBI : TABLE_IDX (hashFn c)
      (st.shards.getD (SHARD_IDX (hashFn c)) default).capacity <
      (st.shards.getD (SHARD_IDX (hashFn c)) default).strs.length := by
    rw [hsl]; exact TABLE_IDX_lt _ hcp
  obtain ⟨A, B, hAB1, hAB2⟩ := allHandles_shard_decomp st hSI
  obtain ⟨C, D, hCD1, hCD2⟩ := flatten_chain_decomp
    (st.shards.getD (SHARD_IDX (hashFn c)) default).strs hBI
  have hchmem : ∀ x ∈ (st.shards.getD (SHARD_IDX (hashFn c)) default).strs.getD
      (TABLE_IDX (hashFn c)
        (st.shards.getD (SHARD_IDX (hashFn c)) default).capacity) [],
      x ∈ allHandles st := by
    intro x hx
    rw [hAB2, hCD2]
    exact (sublist_append_middle A B _).subset
      ((sublist_append_middle C D _).subset hx)
  have hfound : (scanChain (hashFn c) c
      ((st.shards.getD (SHARD_IDX (hashFn c)) default).strs.getD
        (TABLE_IDX (hashFn c)
          (st.shards.getD (SHARD_IDX (hashFn c)) default).capacity) [])).found
      = none := by
    rw [scanChain_none_iff]
    intro s hs _ hsc
    exact absurd hsc (hnomem s (hchmem s hs))
  have hscan : scanChain (hashFn c) c
      ((st.shards.getD (SHARD_IDX (hashFn c)) default).strs.getD
        (TABLE_IDX (hashFn c)
          (st.shards.getD (SHARD_IDX (hashFn c)) default).capacity) [])
      = ⟨(st.shards.getD (SHARD_IDX (hashFn c)) default).strs.getD
          (TABLE_IDX (hashFn c)
            (st.shards.getD (SHARD_IDX (hashFn c)) default).capacity) [],
         none, false⟩ := by
    have h1 := scanChain_none_chain (hashFn c) c _ hfound
    have h2 := scanChain_casFailed (hashFn c) c
      ((st.shards.getD (SHARD_IDX (hashFn c)) default).strs.getD
        (TABLE_IDX (hashFn c)
          (st.shards.getD (SHARD_IDX (hashFn c)) default).capacity) [])
    cases hr : scanChain (hashFn c) c
        ((st.shards.getD (SHARD_IDX (hashFn c)) default).strs.getD
          (TABLE_IDX (hashFn c)
            (st.shards.getD (SHARD_IDX (hashFn c)) default).capacity) []) with
    | mk ch fd cf =>
      rw [hr] at h1 h2 hfound
      simp only [] at h1 h2 hfound
      rw [h1, h2, hfound]
  have hred : grpc_slice_intern hashFn staticTbl st sl =
      ⟨⟨st.shards.set (SHARD_IDX (hashFn c))
          (if (st.shards.getD (SHARD_IDX (hashFn c)) default).count + 1 >
              (st.shards.getD (SHARD_IDX (hashFn c)) default).capacity * 2
            then grow_shard
              ⟨(st.shards.getD (SHARD_IDX (hashFn c)) default).strs.set
                (TABLE_IDX (hashFn c)
                  (st.shards.getD (SHARD_IDX (hashFn c)) default).capacity)
                (⟨st.next_id, 1, hashFn c, c⟩ ::
                  (st.shards.getD (SHARD_IDX (hashFn c)) default).strs.getD
                    (TABLE_IDX (hashFn c)
                      (st.shards.getD (SHARD_IDX (hashFn c)) default).capacity)
                    []),
                (st.shards.getD (SHARD_IDX (hashFn c)) default).count + 1,
                (st.shards.getD (SHARD_IDX (hashFn c)) default).capacity⟩
            else
              ⟨(st.shards.getD (SHARD_IDX (hashFn c)) default).strs.set
                (TABLE_IDX (hashFn c)
                  (st.shards.getD (SHARD_IDX (hashFn c)) default).capacity)
                (⟨st.next_id, 1, hashFn c, c⟩ ::
                  (st.shards.getD (SHARD_IDX (hashFn c)) default).strs.getD
                    (TABLE_IDX (hashFn c)
                      (st.shards.getD (SHARD_IDX (hashFn c)) default).capacity)
                    []),
                (st.shards.getD (SHARD_IDX (hashFn c)) default).count + 1,
                (st.shards.getD (SHARD_IDX (hashFn c)) default).capacity⟩),
        st.next_id + 1⟩,
      .interned st.next_id c, true, true⟩ := by
    simp only [grpc_slice_intern, hns, Bool.false_eq_true, if_false, hcont,
      hhash, hsp, hscan]
  have hRsymm : ∀ {x y : interned_slice_refcount},
      (x.id ≠ y.id ∧ x.content ≠ y.content) →
      (y.id ≠ x.id ∧ y.content ≠ x.content) :=
    fun h => ⟨h.1.symm, h.2.symm⟩
  have hpwcons : ((⟨st.next_id, 1, hashFn c, c⟩ : interned_slice_refcount)
      :: allHandles st).Pairwise
      (fun a b => a.id ≠ b.id ∧ a.content ≠ b.content) := by
    rw [List.pairwise_cons]
    refine ⟨?_, hInv.2.2.1⟩
    intro y hy
    have hglob := hInv.2.2.2 y hy
    constructor
    · intro he
      have hlt := hglob.1
      simp only [] at he
      omega
    · intro he
      exact hnomem y hy (by simpa using he.symm)
  have hflatmem : ∀ x ∈ (st.shards.getD (SHARD_IDX (hashFn c))
      default).strs.flatten,
      SHARD_IDX x.hash = SHARD_IDX (hashFn c) ∧
      x.hash = hashFn x.content ∧ 1 ≤ x.refcnt := by
    intro x hx
    obtain ⟨ch, hch, hxch⟩ := List.mem_flatten.1 hx
    obtain ⟨j, hjlt, hjeq⟩ := List.mem_iff_getElem.1 hch
    have hxg : x ∈ (st.shards.getD (SHARD_IDX (hashFn c))
        default).strs.getD j [] := by
      rw [List.getD_eq_getElem _ _ hjlt, hjeq]; exact hxch
    obtain ⟨ha, _, hb, hc'⟩ := hbuckets j hjlt x hxg
    exact ⟨ha, hb, hc'⟩
  have hmkInv : ∀ sh2 : slice_shard,
      sh2.strs.length = sh2.capacity →
      0 < sh2.capacity →
      sh2.count = sh2.strs.flatten.length →
      (∀ j < sh2.strs.length, ∀ x ∈ sh2.strs.getD j [],
        SHARD_IDX x.hash = SHARD_IDX (hashFn c) ∧
        TABLE_IDX x.hash sh2.capacity = j ∧
        x.hash = hashFn x.content ∧ 1 ≤ x.refcnt) →
      sh2.strs.flatten.Perm (C ++
        ((⟨st.next_id, 1, hashFn c, c⟩ : interned_slice_refcount) ::
          (st.shards.getD (SHARD_IDX (hashFn c)) default).strs.getD
            (TABLE_IDX (hashFn c)
              (st.shards.getD (SHARD_IDX (hashFn c)) default).capacity) [])
        ++ D) →
      Inv hashFn staticTbl ⟨st.shards.set (SHARD_IDX (hashFn c)) sh2,
        st.next_id + 1⟩ ∧
      (allHandles ⟨st.shards.set (SHARD_IDX (hashFn c)) sh2,
        st.next_id + 1⟩).Perm
        ((⟨st.next_id, 1, hashFn c, c⟩ : interned_slice_refcount)
          :: allHandles st) := by
    intro sh2 h2len h2cap h2cnt h2bk h2perm
    have hstate : allHandles ⟨st.shards.set (SHARD_IDX (hashFn c)) sh2,
        st.next_id + 1⟩ = A ++ sh2.strs.flatten ++ B := hAB1 sh2 _
    have hold' : allHandles st
        = (A ++ C) ++ ((st.shards.getD (SHARD_IDX (hashFn c))
          default).strs.getD (TABLE_IDX (hashFn c)
            (st.shards.getD (SHARD_IDX (hashFn c)) default).capacity) []
          ++ (D ++ B)) := by
      rw [hAB2, hCD2]
      simp [List.append_assoc]
    have hperm : (allHandles ⟨st.shards.set (SHARD_IDX (hashFn c)) sh2,
        st.next_id + 1⟩).Perm
        ((⟨st.next_id, 1, hashFn c, c⟩ : interned_slice_refcount)
          :: allHandles st) := by
      rw [hstate]
      have hp1 : (A ++ sh2.strs.flatten ++ B).Perm
          (A ++ (C ++ ((⟨st.next_id, 1, hashFn c, c⟩ :
            interned_slice_refcount) ::
            (st.shards.getD (SHARD_IDX (hashFn c)) default).strs.getD
              (TABLE_IDX (hashFn c)
                (st.shards.getD (SHARD_IDX (hashFn c)) default).capacity) [])
            ++ D) ++ B) :=
        (h2perm.append_left A).append_right B
      refine hp1.trans ?_
      rw [hold']
      have he : A ++ (C ++ ((⟨st.next_id, 1, hashFn c, c⟩ :
          interned_slice_refcount) ::
          (st.shards.getD (SHARD_IDX (hashFn c)) default).strs.getD
            (TABLE_IDX (hashFn c)
              (st.shards.getD (SHARD_IDX (hashFn c)) default).capacity) [])
          ++ D) ++ B
          = (A ++ C) ++ ((⟨st.next_id, 1, hashFn c, c⟩ :
            interned_slice_refcount) ::
            ((st.shards.getD (SHARD_IDX (hashFn c)) default).strs.getD
              (TABLE_IDX (hashFn c)
                (st.shards.getD (SHARD_IDX (hashFn c)) default).capacity) []
              ++ (D ++ B))) := by
        simp [List.append_assoc]
      rw [he]
      exact List.perm_middle
    refine ⟨⟨by simpa using hlen32, ?_, ?_, ?_⟩, hperm⟩
    · intro i hi
      by_cases hiSI : i = SHARD_IDX (hashFn c)
      · subst hiSI
        rw [getD_set_self _ _ _ hSI]
        exact ⟨h2len, h2cap, h2cnt, h2bk⟩
      · rw [getD_set_ne _ _ _ (fun he => hiSI he.symm)]
        exact hInv.2.1 i hi
    · rw [(List.Perm.pairwise_iff hRsymm hperm :
        List.Pairwise _ _ ↔ List.Pairwise _ _)]
      exact hpwcons
    · intro x hx
      have hx' := hperm.mem_iff.1 hx
      rcases List.mem_cons.1 hx' with rfl | hxo
      · exact ⟨by simp, by simpa using hsp⟩
      · have hglob := hInv.2.2.2 x hxo
        refine ⟨show x.id < st.next_id + 1 from ?_, hglob.2⟩
        have h1 := hglob.1
        omega
  have hcnt1 : (st.shards.getD (SHARD_IDX (hashFn c)) default).count + 1
      = ((st.shards.getD (SHARD_IDX (hashFn c)) default).strs.set
        (TABLE_IDX (hashFn c)
          (st.shards.getD (SHARD_IDX (hashFn c)) default).capacity)
        ((⟨st.next_id, 1, hashFn c, c⟩ : interned_slice_refcount) ::
          (st.shards.getD (SHARD_IDX (hashFn c)) default).strs.getD
            (TABLE_IDX (hashFn c)
              (st.shards.getD (SHARD_IDX (hashFn c)) default).capacity)
            [])).flatten.length := by
    rw [hCD1]
    have := hcnt
    rw [hCD2] at this
    simp only [List.length_append, List.length_cons] at this ⊢
    omega
  have hbk1 : ∀ j < ((st.shards.getD (SHARD_IDX (hashFn c)) default).strs.set
      (TABLE_IDX (hashFn c)
        (st.shards.getD (SHARD_IDX (hashFn c)) default).capacity)
      ((⟨st.next_id, 1, hashFn c, c⟩ : interned_slice_refcount) ::
        (st.shards.getD (SHARD_IDX (hashFn c)) default).strs.getD
          (TABLE_IDX (hashFn c)
            (st.shards.getD (SHARD_IDX (hashFn c)) default).capacity)
          [])).length,
      ∀ x ∈ ((st.shards.getD (SHARD_IDX (hashFn c)) default).strs.set
        (TABLE_IDX (hashFn c)
          (st.shards.getD (SHARD_IDX (hashFn c)) default).capacity)
        ((⟨st.next_id, 1, hashFn c, c⟩ : interned_slice_refcount) ::
          (st.shards.getD (SHARD_IDX (hashFn c)) default).strs.getD
            (TABLE_IDX (hashFn c)
              (st.shards.getD (SHARD_IDX (hashFn c)) default).capacity)
            [])).getD j [],
      SHARD_IDX x.hash = SHARD_IDX (hashFn c) ∧
      TABLE_IDX x.hash
        (st.shards.getD (SHARD_IDX (hashFn c)) default).capacity = j ∧
      x.hash = hashFn x.content ∧ 1 ≤ x.refcnt := by
    intro j hj x hx
    simp only [List.length_set] at hj
    by_cases hjBI : j = TABLE_IDX (hashFn c)
        (st.shards.getD (SHARD_IDX (hashFn c)) default).capacity
    · subst hjBI
      rw [getD_set_self _ _ _ hBI] at hx
      rcases List.mem_cons.1 hx with rfl | hx2
      · exact ⟨rfl, rfl, rfl, le_refl 1⟩
      · exact hbuckets _ hBI x hx2
    · rw [getD_set_ne _ _ _ (fun he => hjBI he.symm)] at hx
      exact hbuckets j hj x hx
  rw [hred]
  refine ⟨rfl, rfl, rfl, rfl, ?_⟩
  by_cases hgrow : (st.shards.getD (SHARD_IDX (hashFn c)) default).count + 1 >
      (st.shards.getD (SHARD_IDX (hashFn c)) default).capacity * 2
  · rw [if_pos hgrow]
    obtain ⟨g1, g2, g3, g4, g5⟩ := grow_shard_spec
      ⟨(st.shards.getD (SHARD_IDX (hashFn c)) default).strs.set
        (TABLE_IDX (hashFn c)
          (st.shards.getD (SHARD_IDX (hashFn c)) default).capacity)
        ((⟨st.next_id, 1, hashFn c, c⟩ : interned_slice_refcount) ::
          (st.shards.getD (SHARD_IDX (hashFn c)) default).strs.getD
            (TABLE_IDX (hashFn c)
              (st.shards.getD (SHARD_IDX (hashFn c)) default).capacity)
            []),
        (st.shards.getD (SHARD_IDX (hashFn c)) default).count + 1,
        (st.shards.getD (SHARD_IDX (hashFn c)) default).capacity⟩ hcp
    have hg4' := g4
    rw [hCD1] at hg4'
    have ⟨hInv', hPerm'⟩ := hmkInv _ (by rw [g3, g1])
      (by rw [g1]; exact Nat.mul_pos hcp (by omega))
      (by
        rw [g2, g4.length_eq]
        exact hcnt1)
      (by
        intro j hj x hx
        have hjlt : j < (st.shards.getD (SHARD_IDX (hashFn c))
            default).capacity * 2 := by
          rw [← g3]; exact hj
        refine ⟨?_, ?_, ?_, ?_⟩
        · have hxf := mem_flatten_of_mem_getD _ hj hx
          have hxm := g4.mem_iff.1 hxf
          rw [hCD1] at hxm
          rcases List.mem_append.1 hxm with hxm1 | hxm2
          · rcases List.mem_append.1 hxm1 with hxm3 | hxm4
            · refine (hflatmem x ?_).1
              rw [hCD2]
              exact List.mem_append_left _ (List.mem_append_left _ hxm3)
            · rcases List.mem_cons.1 hxm4 with rfl | hxm5
              · rfl
              · refine (hflatmem x ?_).1
                rw [hCD2]
                exact List.mem_append_left _ (List.mem_append_right _ hxm5)
          · refine (hflatmem x ?_).1
            rw [hCD2]
            exact List.mem_append_right _ hxm2
        · rw [g1]
          exact g5 j hjlt x hx
        · have hxf := mem_flatten_of_mem_getD _ hj hx
          have hxm := g4.mem_iff.1 hxf
          rw [hCD1] at hxm
          rcases List.mem_append.1 hxm with hxm1 | hxm2
          · rcases List.mem_append.1 hxm1 with hxm3 | hxm4
            · refine (hflatmem x ?_).2.1
              rw [hCD2]
              exact List.mem_append_left _ (List.mem_append_left _ hxm3)
            · rcases List.mem_cons.1 hxm4 with rfl | hxm5
              · rfl
              · refine (hflatmem x ?_).2.1
                rw [hCD2]
                exact List.mem_append_left _ (List.mem_append_right _ hxm5)
          · refine (hflatmem x ?_).2.1
            rw [hCD2]
            exact List.mem_append_right _ hxm2
        · have hxf := mem_flatten_of_mem_getD _ hj hx
          have hxm := g4.mem_iff.1 hxf
          rw [hCD1] at hxm
          rcases List.mem_append.1 hxm with hxm1 | hxm2
          · rcases List.mem_append.1 hxm1 with hxm3 | hxm4
            · refine (hflatmem x ?_).2.2
              rw [hCD2]
              exact List.mem_append_left _ (List.mem_append_left _ hxm3)
            · rcases List.mem_cons.1 hxm4 with rfl | hxm5
              · exact le_refl 1
              · refine (hflatmem x ?_).2.2
                rw [hCD2]
                exact List.mem_append_left _ (List.mem_append_right _ hxm5)
          · refine (hflatmem x ?_).2.2
            rw [hCD2]
            exact List.mem_append_right _ hxm2)
      hg4'
    exact ⟨hInv', hPerm'⟩
  · rw [if_neg hgrow]
    have ⟨hInv', hPerm'⟩ := hmkInv
      ⟨(st.shards.getD (SHARD_IDX (hashFn c)) default).strs.set
        (TABLE_IDX (hashFn c)
          (st.shards.getD (SHARD_IDX (hashFn c)) default).capacity)
        ((⟨st.next_id, 1, hashFn c, c⟩ : interned_slice_refcount) ::
          (st.shards.getD (SHARD_IDX (hashFn c)) default).strs.getD
            (TABLE_IDX (hashFn c)
              (st.shards.getD (SHARD_IDX (hashFn c)) default).capacity)
            []),
        (st.shards.getD (SHARD_IDX (hashFn c)) default).count + 1,
        (st.shards.getD (SHARD_IDX (hashFn c)) default).capacity⟩
      (by simpa using hsl) hcp hcnt1 hbk1
      (by rw [hCD1])
    exact ⟨hInv', hPerm'⟩

end InternChar

/-! ### Unref and destroy -/

theorem removeFirstById_spec {id : Nat} :
    ∀ (l1 : List interned_slice_refcount) (s : interned_slice_refcount)
      (l2 : List interned_slice_refcount),
      (∀ x ∈ l1, x.id ≠ id) → s.id = id →
      removeFirstById id (l1 ++ s :: l2) = some (l1 ++ l2) := by
  intro l1
  induction l1 with
  | nil =>
    intro s l2 _ hs
    simp [removeFirstById, hs]
  | cons x l1 ih =>
    intro s l2 h1 hs
    have hx : ¬ x.id = id := h1 x (List.mem_cons_self _ _)
    simp only [List.cons_append, removeFirstById, if_neg hx, List.append_eq]
    rw [ih s l2 (fun y hy => h1 y (List.mem_cons_of_mem _ hy)) hs]
    rfl

theorem removeFirstById_not_mem {id : Nat} :
    ∀ (l : List interned_slice_refcount), (∀ x ∈ l, x.id ≠ id) →
      removeFirstById id l = none := by
  intro l
  induction l with
  | nil => intro _; rfl
  | cons x l ih =>
    intro h1
    have hx : ¬ x.id = id := h1 x (List.mem_cons_self _ _)
    simp only [removeFirstById, if_neg hx]
    rw [ih (fun y hy => h1 y (List.mem_cons_of_mem _ hy))]
    rfl

theorem updateHandle_next_id (st : InternTable) (id : Nat)
    (f : interned_slice_refcount → interned_slice_refcount) :
    (updateHandle st id f).next_id = st.next_id := rfl

theorem updateHandle_length (st : InternTable) (id : Nat)
    (f : interned_slice_refcount → interned_slice_refcount) :
    (updateHandle st id f).shards.length = st.shards.length := by
  simp [updateHandle]

theorem updateHandle_getD (st : InternTable) (id : Nat)
    (f : interned_slice_refcount → interned_slice_refcount) {i : Nat}
    (hi : i < st.shards.length) :
    (updateHandle st id f).shards.getD i default =
      ⟨(st.shards.getD i default).strs.map (fun chain => chain.map
          (fun h => if h.id = id then f h else h)),
        (st.shards.getD i default).count,
        (st.shards.getD i default).capacity⟩ := by
  unfold updateHandle
  rw [List.getD_eq_getElem _ _ (by simpa using hi), List.getElem_map,
    List.getD_eq_getElem _ _ hi]

theorem flatten_map_map {α β : Type _} (f : α → β) :
    ∀ (L : List (List α)),
      (L.map (fun chain => chain.map f)).flatten = L.flatten.map f := by
  intro L
  induction L with
  | nil => rfl
  | cons ch L ih =>
    simp only [List.map_cons, List.flatten_cons, List.map_append, ih]

theorem allHandles_updateHandle (st : InternTable) (id : Nat)
    (f : interned_slice_refcount → interned_slice_refcount) :
    allHandles (updateHandle st id f)
      = (allHandles st).map (fun h => if h.id = id then f h else h) := by
  unfold allHandles updateHandle
  induction st.shards with
  | nil => rfl
  | cons sh shs ih =>
    simp only [List.map_cons, List.flatten_cons, List.map_append]
    rw [ih]
    congr 1
    exact flatten_map_map _ sh.strs

theorem map_id_on {α : Type _} {f : α → α} :
    ∀ {l : List α}, (∀ x ∈ l, f x = x) → l.map f = l := by
  intro l
  induction l with
  | nil => intro _; rfl
  | cons x l ih =>
    intro h
    rw [List.map_cons, h x (List.mem_cons_self _ _),
      ih (fun y hy => h y (List.mem_cons_of_mem _ hy))]

theorem destroy_spec {t : InternTable} {s : interned_slice_refcount}
    {l1 l2 : List interned_slice_refcount}
    (hchain : (t.shards.getD (SHARD_IDX s.hash) default).strs.getD
      (TABLE_IDX s.hash
        (t.shards.getD (SHARD_IDX s.hash) default).capacity) []
      = l1 ++ s :: l2)
    (hl1 : ∀ x ∈ l1, x.id ≠ s.id)
    (h0 : s.refcnt = 0) :
    interned_slice_destroy t s = some
      ⟨t.shards.set (SHARD_IDX s.hash)
        ⟨(t.shards.getD (SHARD_IDX s.hash) default).strs.set
          (TABLE_IDX s.hash
            (t.shards.getD (SHARD_IDX s.hash) default).capacity)
          (l1 ++ l2),
         (t.shards.getD (SHARD_IDX s.hash) default).count - 1,
         (t.shards.getD (SHARD_IDX s.hash) default).capacity⟩,
        t.next_id⟩ := by
  simp only [interned_slice_destroy, hchain]
  have hany : (l1 ++ s :: l2).any
      (fun x => x.id == s.id && x.refcnt == 0) = true := by
    rw [List.any_eq_true]
    exact ⟨s, by simp, by simp [h0]⟩
  rw [if_pos hany, removeFirstById_spec l1 s l2 hl1 rfl]

theorem unref_red {t : InternTable} {id : Nat} {s0 : interned_slice_refcount}
    (hfind : findHandle t id = some s0) (hrc : s0.refcnt = 1) :
    interned_slice_unref t id = interned_slice_destroy
      (updateHandle t id (fun h => { h with refcnt := h.refcnt - 1 }))
      { s0 with refcnt := 0 } := by
  simp only [interned_slice_unref, hfind, if_pos hrc]

theorem pairwise_flatten_cross {α : Type _} {R : α → α → Prop}
    {L : List (List α)} (hpw : List.Pairwise R L.flatten) {i j : Nat}
    (hi : i < L.length) (hj : j < L.length) (hij : i ≠ j) {x y : α}
    (hx : x ∈ L.getD i []) (hy : y ∈ L.getD j []) : R x y ∨ R y x := by
  have h2 := (List.pairwise_flatten.1 hpw).2
  rw [List.pairwise_iff_getElem] at h2
  rw [List.getD_eq_getElem _ _ hi] at hx
  rw [List.getD_eq_getElem _ _ hj] at hy
  rcases Nat.lt_or_ge i j with hlt | hge
  · exact Or.inl (h2 i j hi hj hlt x hx y hy)
  · have hjl : j < i := by omega
    exact Or.inr (h2 j i hj hi hjl y hy x hx)

theorem destroy_fatal {t : InternTable} {s : interned_slice_refcount}
    (hmiss : ∀ x ∈ (t.shards.getD (SHARD_IDX s.hash) default).strs.getD
      (TABLE_IDX s.hash
        (t.shards.getD (SHARD_IDX s.hash) default).capacity) [],
      x.id ≠ s.id) :
    interned_slice_destroy t s = none := by
  simp only [interned_slice_destroy]
  have hany : ((t.shards.getD (SHARD_IDX s.hash) default).strs.getD
      (TABLE_IDX s.hash
        (t.shards.getD (SHARD_IDX s.hash) default).capacity) []).any
      (fun x => x.id == s.id && x.refcnt == 0) = false := by
    rw [List.any_eq_false]
    intro x hx
    simp [hmiss x hx]
  rw [if_neg (fun hc => (by decide : ¬ (false = true)) (hany ▸ hc))]

section UnrefChar

variable (hashFn : List Nat → Nat) (staticTbl : List (List Nat))

theorem unref_last {st : InternTable} {id : Nat} {s0 : interned_slice_refcount}
    (hInv : Inv hashFn staticTbl st)
    (hfind : findHandle st id = some s0)
    (hrc : s0.refcnt = 1) :
    ∃ st', interned_slice_unref st id = some st' ∧
      findHandle st' id = none ∧
      (∀ id', id' ≠ id → findHandle st' id' = findHandle st id') ∧
      (st'.shards.getD (SHARD_IDX s0.hash) default).count + 1
        = (st.shards.getD (SHARD_IDX s0.hash) default).count ∧
      (∀ i, i ≠ SHARD_IDX s0.hash →
        st'.shards.getD i default = st.shards.getD i default) ∧
      st'.next_id = st.next_id ∧
      Inv hashFn staticTbl st' := by
  have hs0mem : s0 ∈ allHandles st := List.mem_of_find?_eq_some hfind
  have hs0id : s0.id = id := by simpa using List.find?_some hfind
  have hlen32 : st.shards.length = SHARD_COUNT := hInv.1
  have hSI : SHARD_IDX s0.hash < st.shards.length := by
    rw [hlen32]; exact SHARD_IDX_lt _
  obtain ⟨hsl, hcp, hcnt, hbuckets⟩ := hInv.2.1 (SHARD_IDX s0.hash)
    (SHARD_IDX_lt _)
  have hBI : TABLE_IDX s0.hash
      (st.shards.getD (SHARD_IDX s0.hash) default).capacity <
      (st.shards.getD (SHARD_IDX s0.hash) default).strs.length := by
    rw [hsl]; exact TABLE_IDX_lt _ hcp
  have hs0chain := Inv_located hashFn staticTbl hInv hs0mem
  obtain ⟨l1, l2, hchain⟩ := List.append_of_mem hs0chain
  obtain ⟨A, B, hAB1, hAB2⟩ := allHandles_shard_decomp st hSI
  obtain ⟨C, D, hCD1, hCD2⟩ := flatten_chain_decomp
    (st.shards.getD (SHARD_IDX s0.hash) default).strs hBI
  have hold : allHandles st
      = (A ++ C ++ l1) ++ s0 :: (l2 ++ D ++ B) := by
    rw [hAB2, hCD2, hchain]
    simp [List.append_assoc]
  have hpwPQ : ((A ++ C ++ l1) ++ s0 :: (l2 ++ D ++ B)).Pairwise
      (fun a b => a.id ≠ b.id ∧ a.content ≠ b.content) := hold ▸ hInv.2.2.1
  have hPids : ∀ x ∈ A ++ C ++ l1, x.id ≠ s0.id :=
    fun x hx => ((List.pairwise_append.1 hpwPQ).2.2 x hx s0
      (List.mem_cons_self _ _)).1
  have hQids : ∀ y ∈ l2 ++ D ++ B, s0.id ≠ y.id :=
    fun y hy => ((List.pairwise_cons.1
      (List.pairwise_append.1 hpwPQ).2.1).1 y hy).1
  have hl1ids : ∀ x ∈ l1, x.id ≠ s0.id := fun x hx =>
    hPids x (List.mem_append_right _ hx)
  have hl2ids : ∀ x ∈ l2, x.id ≠ s0.id := fun x hx =>
    (hQids x (List.mem_append_left _ (List.mem_append_left _ hx))).symm
  -- the state after the fetch-and-add decrement
  have hchain1 : ((updateHandle st id (fun h =>
      { h with refcnt := h.refcnt - 1 })).shards.getD
        (SHARD_IDX s0.hash) default).strs.getD
      (TABLE_IDX s0.hash ((updateHandle st id (fun h =>
        { h with refcnt := h.refcnt - 1 })).shards.getD
          (SHARD_IDX s0.hash) default).capacity) []
      = l1 ++ ({ s0 with refcnt := 0 }) :: l2 := by
    rw [updateHandle_getD st id _ hSI]
    show ((st.shards.getD (SHARD_IDX s0.hash) default).strs.map _).getD
      (TABLE_IDX s0.hash
        (st.shards.getD (SHARD_IDX s0.hash) default).capacity) [] = _
    rw [List.getD_eq_getElem _ _ (by simpa using hBI), List.getElem_map,
      ← List.getD_eq_getElem _ _ hBI, hchain, List.map_append, List.map_cons]
    congr 1
    · refine map_id_on (fun x hx => ?_)
      show (if x.id = id then
        ({ x with refcnt := x.refcnt - 1 } : interned_slice_refcount) else x)
        = x
      rw [if_neg (hs0id ▸ hl1ids x hx)]
    · congr 1
      · show (if s0.id = id then
          ({ s0 with refcnt := s0.refcnt - 1 } : interned_slice_refcount)
          else s0) = { s0 with refcnt := 0 }
        rw [if_pos hs0id]
        simp [hrc]
      · refine map_id_on (fun x hx => ?_)
        show (if x.id = id then
          ({ x with refcnt := x.refcnt - 1 } : interned_slice_refcount)
          else x) = x
        rw [if_neg (hs0id ▸ hl2ids x hx)]
  have hdestroy := @destroy_spec
    (updateHandle st id (fun h => { h with refcnt := h.refcnt - 1 }))
    ({ s0 with refcnt := 0 }) l1 l2 hchain1
    (fun x hx => hl1ids x hx) rfl
  have hlen1 : (updateHandle st id (fun h =>
      { h with refcnt := h.refcnt - 1 })).shards.length
      = st.shards.length := updateHandle_length _ _ _
  -- cross-shard and cross-bucket identifier distinctness
  have hcross_shard : ∀ i, i ≠ SHARD_IDX s0.hash →
      ∀ x ∈ (st.shards.getD i default).strs.flatten, x.id ≠ s0.id := by
    intro i hi x hx
    by_cases hlt : i < st.shards.length
    · have hpw : ((st.shards.map (fun sh => sh.strs.flatten)).flatten).Pairwise
          (fun a b => a.id ≠ b.id ∧ a.content ≠ b.content) := hInv.2.2.1
      have hx' : x ∈ (st.shards.map (fun sh => sh.strs.flatten)).getD i [] := by
        rw [List.getD_eq_getElem _ _ (by simpa using hlt), List.getElem_map,
          ← List.getD_eq_getElem _ _ hlt]
        exact hx
      have hs0' : s0 ∈ (st.shards.map (fun sh => sh.strs.flatten)).getD
          (SHARD_IDX s0.hash) [] := by
        rw [List.getD_eq_getElem _ _ (by simpa using hSI), List.getElem_map,
          ← List.getD_eq_getElem _ _ hSI]
        exact mem_flatten_of_mem_getD _ hBI hs0chain
      rcases pairwise_flatten_cross hpw (by simpa using hlt)
          (by simpa using hSI) hi hx' hs0' with h | h
      · exact h.1
      · exact fun he => h.1 he.symm
    · have hd : (st.shards.getD i default).strs.flatten = [] := by
        rw [List.getD_eq_default _ _ (by omega)]
        rfl
      rw [hd] at hx
      exact absurd hx (List.not_mem_nil x)
  have hpwshard : ((st.shards.getD (SHARD_IDX s0.hash)
      default).strs.flatten).Pairwise
      (fun a b => a.id ≠ b.id ∧ a.content ≠ b.content) := by
    refine List.Pairwise.sublist ?_ hInv.2.2.1
    rw [hAB2]
    exact sublist_append_middle A B _
  have hcross_bucket : ∀ j, j < (st.shards.getD (SHARD_IDX s0.hash)
      default).strs.length →
      j ≠ TABLE_IDX s0.hash
        (st.shards.getD (SHARD_IDX s0.hash) default).capacity →
      ∀ x ∈ (st.shards.getD (SHARD_IDX s0.hash) default).strs.getD j [],
        x.id ≠ s0.id := by
    intro j hj hjBI x hx
    rcases pairwise_flatten_cross hpwshard hj hBI hjBI hx hs0chain with h | h
    · exact h.1
    · exact fun he => h.1 he.symm
  -- the whole update is the identity outside the record s0
  have hsame : ∀ i, i ≠ SHARD_IDX s0.hash →
      (updateHandle st id (fun h =>
        { h with refcnt := h.refcnt - 1 })).shards.getD i default
        = st.shards.getD i default := by
    intro i hi
    by_cases hlt : i < st.shards.length
    · rw [updateHandle_getD st id _ hlt]
      have hmap : (st.shards.getD i default).strs.map
          (fun chain => chain.map (fun h => if h.id = id then
            ({ h with refcnt := h.refcnt - 1 } : interned_slice_refcount)
            else h))
          = (st.shards.getD i default).strs := by
        refine map_id_on (fun ch hch => ?_)
        show ch.map _ = ch
        refine map_id_on (fun x hx => ?_)
        show (if x.id = id then
          ({ x with refcnt := x.refcnt - 1 } : interned_slice_refcount)
          else x) = x
        rw [if_neg (hs0id ▸ hcross_shard i hi x
          (List.mem_flatten.2 ⟨ch, hch, hx⟩))]
      rw [hmap]
    · rw [List.getD_eq_default _ _ (by rw [hlen1]; omega),
        List.getD_eq_default _ _ (by omega)]
  -- the flat view of the decremented state
  have hst1P : allHandles (updateHandle st id (fun h =>
      { h with refcnt := h.refcnt - 1 }))
      = (A ++ C ++ l1) ++ ({ s0 with refcnt := 0 }) :: (l2 ++ D ++ B) := by
    rw [allHandles_updateHandle, hold, List.map_append, List.map_cons]
    congr 1
    · refine map_id_on (fun x hx => ?_)
      show (if x.id = id then
        ({ x with refcnt := x.refcnt - 1 } : interned_slice_refcount) else x)
        = x
      rw [if_neg (hs0id ▸ hPids x hx)]
    · congr 1
      · show (if s0.id = id then
          ({ s0 with refcnt := s0.refcnt - 1 } : interned_slice_refcount)
          else s0) = { s0 with refcnt := 0 }
        rw [if_pos hs0id]
        simp [hrc]
      · refine map_id_on (fun x hx => ?_)
        show (if x.id = id then
          ({ x with refcnt := x.refcnt - 1 } : interned_slice_refcount)
          else x) = x
        rw [if_neg (hs0id ▸ fun he => hQids x hx he.symm)]
  have hpw1 : (allHandles (updateHandle st id (fun h =>
      { h with refcnt := h.refcnt - 1 }))).Pairwise
      (fun a b => a.id ≠ b.id ∧ a.content ≠ b.content) := by
    rw [hst1P]
    refine pairwise_replace_mid ?_ ?_ hpwPQ
    · intro x hx
      exact ⟨hx.1, hx.2⟩
    · intro x hx
      exact ⟨hx.1, hx.2⟩
  -- decomposition of the decremented state around its shard and bucket
  obtain ⟨A1, B1, hA1B1, hA1B2⟩ := allHandles_shard_decomp
    (updateHandle st id (fun h => { h with refcnt := h.refcnt - 1 }))
    (show SHARD_IDX s0.hash < _ from by rw [hlen1]; exact hSI)
  obtain ⟨C1, D1, hC1D1, hC1D2⟩ := flatten_chain_decomp
    ((updateHandle st id (fun h =>
      { h with refcnt := h.refcnt - 1 })).shards.getD
        (SHARD_IDX s0.hash) default).strs
    (show TABLE_IDX s0.hash ((updateHandle st id (fun h =>
      { h with refcnt := h.refcnt - 1 })).shards.getD
        (SHARD_IDX s0.hash) default).capacity < _ from by
      rw [updateHandle_getD st id _ hSI]
      show TABLE_IDX s0.hash
        (st.shards.getD (SHARD_IDX s0.hash) default).capacity
        < ((st.shards.getD (SHARD_IDX s0.hash) default).strs.map _).length
      simpa using hBI)
  have hst1flat : allHandles (updateHandle st id (fun h =>
      { h with refcnt := h.refcnt - 1 }))
      = (A1 ++ C1 ++ l1) ++ ({ s0 with refcnt := 0 }) :: (l2 ++ D1 ++ B1) := by
    rw [hA1B2, hC1D2, hchain1]
    simp [List.append_assoc]
  have hpwXY : ((A1 ++ C1 ++ l1) ++ ({ s0 with refcnt := 0 })
      :: (l2 ++ D1 ++ B1)).Pairwise
      (fun a b => a.id ≠ b.id ∧ a.content ≠ b.content) := hst1flat ▸ hpw1
  have hXids : ∀ x ∈ A1 ++ C1 ++ l1, x.id ≠ s0.id := fun x hx =>
    ((List.pairwise_append.1 hpwXY).2.2 x hx _ (List.mem_cons_self _ _)).1
  have hYids : ∀ y ∈ l2 ++ D1 ++ B1, s0.id ≠ y.id := fun y hy =>
    ((List.pairwise_cons.1 (List.pairwise_append.1 hpwXY).2.1).1 y hy).1
  have hS1getD := updateHandle_getD st id
    (fun h => { h with refcnt := h.refcnt - 1 }) hSI
  have hS1cap : ((updateHandle st id (fun h =>
      { h with refcnt := h.refcnt - 1 })).shards.getD
        (SHARD_IDX s0.hash) default).capacity
      = (st.shards.getD (SHARD_IDX s0.hash) default).capacity := by
    rw [hS1getD]
  have hS1cnt : ((updateHandle st id (fun h =>
      { h with refcnt := h.refcnt - 1 })).shards.getD
        (SHARD_IDX s0.hash) default).count
      = (st.shards.getD (SHARD_IDX s0.hash) default).count := by
    rw [hS1getD]
  have hS1strs : ((updateHandle st id (fun h =>
      { h with refcnt := h.refcnt - 1 })).shards.getD
        (SHARD_IDX s0.hash) default).strs
      = (st.shards.getD (SHARD_IDX s0.hash) default).strs.map
        (fun chain => chain.map (fun h => if h.id = id then
          ({ h with refcnt := h.refcnt - 1 } : interned_slice_refcount)
          else h)) := by
    rw [hS1getD]
  have hS1slen : ((updateHandle st id (fun h =>
      { h with refcnt := h.refcnt - 1 })).shards.getD
        (SHARD_IDX s0.hash) default).strs.length
      = (st.shards.getD (SHARD_IDX s0.hash) default).strs.length := by
    rw [hS1strs, List.length_map]
  have hSIup : SHARD_IDX s0.hash < (updateHandle st id (fun h =>
      { h with refcnt := h.refcnt - 1 })).shards.length := by
    rw [hlen1]; exact hSI
  have hunref : interned_slice_unref st id = some
      ⟨(updateHandle st id (fun h =>
          { h with refcnt := h.refcnt - 1 })).shards.set (SHARD_IDX s0.hash)
        ⟨((updateHandle st id (fun h =>
            { h with refcnt := h.refcnt - 1 })).shards.getD
              (SHARD_IDX s0.hash) default).strs.set
            (TABLE_IDX s0.hash ((updateHandle st id (fun h =>
              { h with refcnt := h.refcnt - 1 })).shards.getD
                (SHARD_IDX s0.hash) default).capacity)
            (l1 ++ l2),
          ((updateHandle st id (fun h =>
            { h with refcnt := h.refcnt - 1 })).shards.getD
              (SHARD_IDX s0.hash) default).count - 1,
          ((updateHandle st id (fun h =>
            { h with refcnt := h.refcnt - 1 })).shards.getD
              (SHARD_IDX s0.hash) default).capacity⟩,
        (updateHandle st id (fun h =>
          { h with refcnt := h.refcnt - 1 })).next_id⟩ := by
    rw [unref_red hfind hrc]
    exact hdestroy
  have hSTflat : allHandles
      ⟨(updateHandle st id (fun h =>
          { h with refcnt := h.refcnt - 1 })).shards.set (SHARD_IDX s0.hash)
        ⟨((updateHandle st id (fun h =>
            { h with refcnt := h.refcnt - 1 })).shards.getD
              (SHARD_IDX s0.hash) default).strs.set
            (TABLE_IDX s0.hash ((updateHandle st id (fun h =>
              { h with refcnt := h.refcnt - 1 })).shards.getD
                (SHARD_IDX s0.hash) default).capacity)
            (l1 ++ l2),
          ((updateHandle st id (fun h =>
            { h with refcnt := h.refcnt - 1 })).shards.getD
              (SHARD_IDX s0.hash) default).count - 1,
          ((updateHandle st id (fun h =>
            { h with refcnt := h.refcnt - 1 })).shards.getD
              (SHARD_IDX s0.hash) default).capacity⟩,
        (updateHandle st id (fun h =>
          { h with refcnt := h.refcnt - 1 })).next_id⟩
      = (A1 ++ C1 ++ l1) ++ (l2 ++ D1 ++ B1) := by
    rw [hA1B1, hC1D1]
    simp [List.append_assoc]
  refine ⟨_, hunref, ?_, ?_, ?_, ?_, ?_, ?_⟩
  · -- the destroyed record is unreachable
    unfold findHandle
    rw [hSTflat, List.find?_eq_none]
    intro x hx
    have hxne : x.id ≠ id := by
      rcases List.mem_append.1 hx with h | h
      · exact hs0id ▸ hXids x h
      · exact hs0id ▸ fun he => hYids x h he.symm
    simpa using hxne
  · -- other records resolve as before
    intro id' hid'
    have hstep1 : (allHandles
        ⟨(updateHandle st id (fun h =>
            { h with refcnt := h.refcnt - 1 })).shards.set (SHARD_IDX s0.hash)
          ⟨((updateHandle st id (fun h =>
              { h with refcnt := h.refcnt - 1 })).shards.getD
                (SHARD_IDX s0.hash) default).strs.set
              (TABLE_IDX s0.hash ((updateHandle st id (fun h =>
                { h with refcnt := h.refcnt - 1 })).shards.getD
                  (SHARD_IDX s0.hash) default).capacity)
              (l1 ++ l2),
            ((updateHandle st id (fun h =>
              { h with refcnt := h.refcnt - 1 })).shards.getD
                (SHARD_IDX s0.hash) default).count - 1,
            ((updateHandle st id (fun h =>
              { h with refcnt := h.refcnt - 1 })).shards.getD
                (SHARD_IDX s0.hash) default).capacity⟩,
          (updateHandle st id (fun h =>
            { h with refcnt := h.refcnt - 1 })).next_id⟩).find?
        (fun h => h.id == id')
        = (allHandles (updateHandle st id (fun h =>
          { h with refcnt := h.refcnt - 1 }))).find? (fun h => h.id == id') := by
      rw [hSTflat, hst1flat]
      generalize A1 ++ C1 ++ l1 = X
      generalize l2 ++ D1 ++ B1 = Y
      rw [find?_append_eq, find?_append_eq]
      cases hfX : List.find? (fun h => h.id == id') X with
      | some a => rfl
      | none =>
        rw [List.find?_cons]
        have hsr : (({ s0 with refcnt := 0 }
            : interned_slice_refcount).id == id') = false := by
          simp only [beq_eq_false_iff_ne]
          show s0.id ≠ id'
          intro he
          exact hid' (he.symm.trans hs0id)
        simp [hsr]
    have hstep2 : (allHandles (updateHandle st id (fun h =>
        { h with refcnt := h.refcnt - 1 }))).find? (fun h => h.id == id')
        = (allHandles st).find? (fun h => h.id == id') := by
      rw [hst1P, hold]
      generalize A ++ C ++ l1 = P
      generalize l2 ++ D ++ B = Q
      rw [find?_append_eq, find?_append_eq]
      cases hfP : List.find? (fun h => h.id == id') P with
      | some a => rfl
      | none =>
        rw [List.find?_cons, List.find?_cons]
        have hsr : (({ s0 with refcnt := 0 }
            : interned_slice_refcount).id == id') = false := by
          simp only [beq_eq_false_iff_ne]
          show s0.id ≠ id'
          intro he
          exact hid' (he.symm.trans hs0id)
        have hsr2 : (s0.id == id') = false := by
          simp only [beq_eq_false_iff_ne]
          intro he
          exact hid' (he.symm.trans hs0id)
        simp [hsr, hsr2]
    exact hstep1.trans hstep2
  · -- the shard's count decreased by one
    rw [getD_set_self _ _ _ hSIup]
    show ((updateHandle st id (fun h =>
      { h with refcnt := h.refcnt - 1 })).shards.getD
        (SHARD_IDX s0.hash) default).count - 1 + 1
      = (st.shards.getD (SHARD_IDX s0.hash) default).count
    rw [hS1cnt]
    have hge : 1 ≤ (st.shards.getD (SHARD_IDX s0.hash) default).count := by
      rw [hcnt, hCD2, hchain]
      simp only [List.length_append, List.length_cons]
      omega
    omega
  · -- other shards untouched
    intro i hi
    rw [getD_set_ne _ _ _ (fun he => hi he.symm)]
    exact hsame i hi
  · rfl
  · -- invariant restored
    have hsub : (allHandles
        ⟨(updateHandle st id (fun h =>
            { h with refcnt := h.refcnt - 1 })).shards.set (SHARD_IDX s0.hash)
          ⟨((updateHandle st id (fun h =>
              { h with refcnt := h.refcnt - 1 })).shards.getD
                (SHARD_IDX s0.hash) default).strs.set
              (TABLE_IDX s0.hash ((updateHandle st id (fun h =>
                { h with refcnt := h.refcnt - 1 })).shards.getD
                  (SHARD_IDX s0.hash) default).capacity)
              (l1 ++ l2),
            ((updateHandle st id (fun h =>
              { h with refcnt := h.refcnt - 1 })).shards.getD
                (SHARD_IDX s0.hash) default).count - 1,
            ((updateHandle st id (fun h =>
              { h with refcnt := h.refcnt - 1 })).shards.getD
                (SHARD_IDX s0.hash) default).capacity⟩,
          (updateHandle st id (fun h =>
            { h with refcnt := h.refcnt - 1 })).next_id⟩).Sublist
        (allHandles (updateHandle st id (fun h =>
          { h with refcnt := h.refcnt - 1 }))) := by
      rw [hSTflat, hst1flat]
      exact List.Sublist.append_left (List.sublist_cons_self _ _) _
    refine ⟨?_, ?_, ?_, ?_⟩
    · show (_ : List slice_shard).length = SHARD_COUNT
      rw [List.length_set, hlen1, hlen32]
    · intro i hi
      by_cases hiSI : i = SHARD_IDX s0.hash
      · subst hiSI
        rw [getD_set_self _ _ _ hSIup]
        refine ⟨?_, ?_, ?_, ?_⟩
        · show (_ : List (List interned_slice_refcount)).length = _
          rw [List.length_set, hS1slen, hsl, hS1cap]
        · show 0 < ((updateHandle st id (fun h =>
            { h with refcnt := h.refcnt - 1 })).shards.getD
              (SHARD_IDX s0.hash) default).capacity
          rw [hS1cap]; exact hcp
        · show ((updateHandle st id (fun h =>
            { h with refcnt := h.refcnt - 1 })).shards.getD
              (SHARD_IDX s0.hash) default).count - 1 = _
          rw [hC1D1, hS1cnt]
          have h1 := hC1D2
          rw [hchain1] at h1
          have h2 := congrArg List.length h1
          have h3 : ((updateHandle st id (fun h =>
              { h with refcnt := h.refcnt - 1 })).shards.getD
                (SHARD_IDX s0.hash) default).strs.flatten.length
              = (st.shards.getD (SHARD_IDX s0.hash) default).count := by
            rw [hS1strs, flatten_map_map, List.length_map, ← hcnt]
          rw [h3] at h2
          simp only [List.length_append, List.length_cons] at h2 ⊢
          omega
        · intro j hj x hx
          have hj' : j < ((updateHandle st id (fun h =>
              { h with refcnt := h.refcnt - 1 })).shards.getD
                (SHARD_IDX s0.hash) default).strs.length := by
            simpa using hj
          by_cases hjBI : j = TABLE_IDX s0.hash ((updateHandle st id (fun h =>
              { h with refcnt := h.refcnt - 1 })).shards.getD
                (SHARD_IDX s0.hash) default).capacity
          · subst hjBI
            rw [getD_set_self _ _ _ (by rw [hS1slen, hS1cap]; exact hBI)] at hx
            have hxold : x ∈ (st.shards.getD (SHARD_IDX s0.hash)
                default).strs.getD (TABLE_IDX s0.hash
                  (st.shards.getD (SHARD_IDX s0.hash) default).capacity) [] := by
              rw [hchain]
              rcases List.mem_append.1 hx with h | h
              · exact List.mem_append_left _ h
              · exact List.mem_append_right _ (List.mem_cons_of_mem _ h)
            have hfact := hbuckets _ hBI x hxold
            refine ⟨hfact.1, ?_, hfact.2.2.1, hfact.2.2.2⟩
            show TABLE_IDX x.hash ((updateHandle st id (fun h =>
              { h with refcnt := h.refcnt - 1 })).shards.getD
                (SHARD_IDX s0.hash) default).capacity = _
            rw [hS1cap]
            exact hfact.2.1
          · rw [getD_set_ne _ _ _ (fun he => hjBI he.symm)] at hx
            have hjlen : j < (st.shards.getD (SHARD_IDX s0.hash)
                default).strs.length := by rw [← hS1slen]; exact hj'
            have hbucket_eq : ((updateHandle st id (fun h =>
                { h with refcnt := h.refcnt - 1 })).shards.getD
                  (SHARD_IDX s0.hash) default).strs.getD j []
                = ((st.shards.getD (SHARD_IDX s0.hash)
                  default).strs.getD j []).map (fun h => if h.id = id then
                    ({ h with refcnt := h.refcnt - 1 }
                      : interned_slice_refcount) else h) := by
              rw [hS1strs, List.getD_eq_getElem _ _ (by simpa using hjlen),
                List.getElem_map, ← List.getD_eq_getElem _ _ hjlen]
            have hxmap := hbucket_eq ▸ hx
            have hmapid : ((st.shards.getD (SHARD_IDX s0.hash)
                default).strs.getD j []).map (fun h => if h.id = id then
                  ({ h with refcnt := h.refcnt - 1 }
                    : interned_slice_refcount) else h)
                = (st.shards.getD (SHARD_IDX s0.hash)
                  default).strs.getD j [] := by
              refine map_id_on (fun y hy => ?_)
              rw [if_neg (hs0id ▸ hcross_bucket j hjlen (fun he =>
                hjBI (by rw [he, hS1cap])) y hy)]
            rw [hmapid] at hxmap
            have hfact := hbuckets j hjlen x hxmap
            refine ⟨hfact.1, ?_, hfact.2.2.1, hfact.2.2.2⟩
            show TABLE_IDX x.hash ((updateHandle st id (fun h =>
              { h with refcnt := h.refcnt - 1 })).shards.getD
                (SHARD_IDX s0.hash) default).capacity = _
            rw [hS1cap]
            exact hfact.2.1
      · rw [getD_set_ne _ _ _ (fun he => hiSI he.symm), hsame i hiSI]
        exact hInv.2.1 i hi
    · exact List.Pairwise.sublist hsub hpw1
    · intro x hx
      have hxne : x.id ≠ s0.id := by
        have hx' := hx
        rw [hSTflat] at hx'
        rcases List.mem_append.1 hx' with h | h
        · exact hXids x h
        · exact fun he => hYids x h he.symm
      have hx1 : x ∈ allHandles (updateHandle st id (fun h =>
          { h with refcnt := h.refcnt - 1 })) := hsub.subset hx
      rw [hst1P] at hx1
      have hxst : x ∈ allHandles st := by
        rw [hold]
        rcases List.mem_append.1 hx1 with h | h
        · exact List.mem_append_left _ h
        · rcases List.mem_cons.1 h with rfl | h2
          · exact absurd rfl hxne
          · exact List.mem_append_right _ (List.mem_cons_of_mem _ h2)
      have hglob := hInv.2.2.2 x hxst
      exact ⟨show x.id < st.next_id from hglob.1, hglob.2⟩

end UnrefChar

/-! ### Shape of the operations on arbitrary states (growth discipline) -/

theorem updateHandle_capacity_getD (st : InternTable) (id : Nat)
    (f : interned_slice_refcount → interned_slice_refcount) (i : Nat) :
    ((updateHandle st id f).shards.getD i default).capacity
      = (st.shards.getD i default).capacity ∧
    ((updateHandle st id f).shards.getD i default).count
      = (st.shards.getD i default).count := by
  by_cases hi : i < st.shards.length
  · rw [updateHandle_getD st id f hi]
    exact ⟨rfl, rfl⟩
  · rw [List.getD_eq_default _ _ (by rw [updateHandle_length]; omega),
      List.getD_eq_default _ _ (by omega)]
    exact ⟨rfl, rfl⟩

theorem unref_shape {st : InternTable} {id : Nat} {st' : InternTable}
    (h : interned_slice_unref st id = some st') :
    ∃ s0, findHandle st id = some s0 ∧
      (st' = updateHandle st id (fun h => { h with refcnt := h.refcnt - 1 }) ∨
       ∃ ch', st' =
        ⟨(updateHandle st id (fun h =>
            { h with refcnt := h.refcnt - 1 })).shards.set
          (SHARD_IDX s0.hash)
          ⟨((updateHandle st id (fun h =>
              { h with refcnt := h.refcnt - 1 })).shards.getD
                (SHARD_IDX s0.hash) default).strs.set
              (TABLE_IDX s0.hash ((updateHandle st id (fun h =>
                { h with refcnt := h.refcnt - 1 })).shards.getD
                  (SHARD_IDX s0.hash) default).capacity)
              ch',
            ((updateHandle st id (fun h =>
              { h with refcnt := h.refcnt - 1 })).shards.getD
                (SHARD_IDX s0.hash) default).count - 1,
            ((updateHandle st id (fun h =>
              { h with refcnt := h.refcnt - 1 })).shards.getD
                (SHARD_IDX s0.hash) default).capacity⟩,
          (updateHandle st id (fun h =>
            { h with refcnt := h.refcnt - 1 })).next_id⟩) := by
  unfold interned_slice_unref at h
  split at h
  · exact absurd h (by simp)
  · rename_i s0' hfind'
    refine ⟨s0', hfind', ?_⟩
    by_cases hrc : s0'.refcnt = 1
    · simp only [if_pos hrc] at h
      simp only [interned_slice_destroy] at h
      split at h
      · split at h
        · rename_i ch' hrem
          right
          exact ⟨ch', (Option.some.inj h).symm⟩
        · exact absurd h (by simp)
      · exact absurd h (by simp)
    · simp only [if_neg hrc] at h
      exact Or.inl (Option.some.inj h).symm

theorem unref_preserves {st : InternTable} {id : Nat} {st' : InternTable}
    (h : interned_slice_unref st id = some st') :
    st'.shards.length = st.shards.length ∧
    st'.next_id = st.next_id ∧
    ∀ i, (st'.shards.getD i default).capacity
      = (st.shards.getD i default).capacity := by
  obtain ⟨s0, _, hcase | ⟨ch', hcase⟩⟩ := unref_shape h
  · subst hcase
    exact ⟨updateHandle_length _ _ _, rfl,
      fun i => (updateHandle_capacity_getD st id _ i).1⟩
  · subst hcase
    refine ⟨by rw [List.length_set]; exact updateHandle_length _ _ _, rfl, ?_⟩
    intro i
    by_cases hiSI : i = SHARD_IDX s0.hash
    · subst hiSI
      by_cases hlt : SHARD_IDX s0.hash <
          (updateHandle st id (fun h =>
            { h with refcnt := h.refcnt - 1 })).shards.length
      · rw [getD_set_self _ _ _ hlt]
        exact (updateHandle_capacity_getD st id _ _).1
      · rw [List.set_eq_of_length_le (by omega)]
        exact (updateHandle_capacity_getD st id _ _).1
    · rw [getD_set_ne _ _ _ (fun he => hiSI he.symm)]
      exact (updateHandle_capacity_getD st id _ i).1

section InternEffect

variable (hashFn : List Nat → Nat) (staticTbl : List (List Nat))

theorem intern_effect (st : InternTable) (sl : grpc_slice)
    (hlen : st.shards.length = SHARD_COUNT) :
    (grpc_slice_intern hashFn staticTbl st sl).state.shards.length
      = SHARD_COUNT ∧
    ((grpc_slice_intern hashFn staticTbl st sl).allocated = false →
      ∀ i, ((grpc_slice_intern hashFn staticTbl st sl).state.shards.getD i
        default).capacity = (st.shards.getD i default).capacity ∧
        ((grpc_slice_intern hashFn staticTbl st sl).state.shards.getD i
        default).count = (st.shards.getD i default).count) ∧
    ((grpc_slice_intern hashFn staticTbl st sl).allocated = true →
      ∃ si < SHARD_COUNT,
        (∀ i, i ≠ si →
          (grpc_slice_intern hashFn staticTbl st sl).state.shards.getD i
            default = st.shards.getD i default) ∧
        ((grpc_slice_intern hashFn staticTbl st sl).state.shards.getD si
          default).count = (st.shards.getD si default).count + 1 ∧
        ((grpc_slice_intern hashFn staticTbl st sl).state.shards.getD si
          default).capacity
          = if (st.shards.getD si default).count + 1 >
              (st.shards.getD si default).capacity * 2
            then (st.shards.getD si default).capacity * 2
            else (st.shards.getD si default).capacity) := by
  by_cases hstat : grpc_is_static_metadata_string sl = true
  · simp only [grpc_slice_intern, if_pos hstat]
    exact ⟨hlen, fun _ i => by simp, fun hco => absurd hco (by simp)⟩
  · have hstat' : grpc_is_static_metadata_string sl = false := by
      cases hb : grpc_is_static_metadata_string sl
      · rfl
      · exact absurd hb hstat
    cases hpr : staticProbe hashFn staticTbl
        (grpc_slice_hash hashFn staticTbl st sl)
        (sliceContent staticTbl st sl) with
    | some k =>
      simp only [grpc_slice_intern, hstat', Bool.false_eq_true, if_false, hpr]
      exact ⟨hlen, fun _ i => by simp, fun hco => absurd hco (by simp)⟩
    | none =>
      have hSIlt : SHARD_IDX (grpc_slice_hash hashFn staticTbl st sl)
          < st.shards.length := by
        rw [hlen]; exact SHARD_IDX_lt _
      cases hfd : (scanChain (grpc_slice_hash hashFn staticTbl st sl)
          (sliceContent staticTbl st sl)
          ((st.shards.getD
            (SHARD_IDX (grpc_slice_hash hashFn staticTbl st sl))
            default).strs.getD
            (TABLE_IDX (grpc_slice_hash hashFn staticTbl st sl)
              (st.shards.getD
                (SHARD_IDX (grpc_slice_hash hashFn staticTbl st sl))
                default).capacity) [])).found with
      | some s =>
        simp only [grpc_slice_intern, hstat', Bool.false_eq_true, if_false,
          hpr, hfd]
        refine ⟨by simpa using hlen, ?_, fun hco => absurd hco (by simp)⟩
        intro _ i
        by_cases hiSI : i = SHARD_IDX (grpc_slice_hash hashFn staticTbl st sl)
        · subst hiSI
          rw [getD_set_self _ _ _ hSIlt]
          exact ⟨rfl, rfl⟩
        · rw [getD_set_ne _ _ _ (fun he => hiSI he.symm)]
          exact ⟨rfl, rfl⟩
      | none =>
        simp only [grpc_slice_intern, hstat', Bool.false_eq_true, if_false,
          hpr, hfd]
        refine ⟨by simpa using hlen, fun hco => absurd hco (by simp), ?_⟩
        intro _
        refine ⟨SHARD_IDX (grpc_slice_hash hashFn staticTbl st sl),
          SHARD_IDX_lt _, ?_, ?_, ?_⟩
        · intro i hi
          rw [getD_set_ne _ _ _ (fun he => hi he.symm)]
        · rw [getD_set_self _ _ _ hSIlt]
          by_cases hgrow : (st.shards.getD
              (SHARD_IDX (grpc_slice_hash hashFn staticTbl st sl))
              default).count + 1 >
              (st.shards.getD
                (SHARD_IDX (grpc_slice_hash hashFn staticTbl st sl))
                default).capacity * 2
          · rw [if_pos hgrow]
            rfl
          · rw [if_neg hgrow]
        · rw [getD_set_self _ _ _ hSIlt]
          by_cases hgrow : (st.shards.getD
              (SHARD_IDX (grpc_slice_hash hashFn staticTbl st sl))
              default).count + 1 >
              (st.shards.getD
                (SHARD_IDX (grpc_slice_hash hashFn staticTbl st sl))
                default).capacity * 2
          · rw [if_pos hgrow, if_pos hgrow]
            rfl
          · rw [if_neg hgrow, if_neg hgrow]

end InternEffect

section OpsDiscipline

variable (hashFn : List Nat → Nat) (staticTbl : List (List Nat))

theorem intern_shards_cases (st : InternTable) (sl : grpc_slice) :
    (grpc_slice_intern hashFn staticTbl st sl).state.shards = st.shards ∨
    ∃ si sh2, (grpc_slice_intern hashFn staticTbl st sl).state.shards
        = st.shards.set si sh2 ∧
      (sh2.capacity = (st.shards.getD si default).capacity ∨
       sh2.capacity = (st.shards.getD si default).capacity * 2) := by
  by_cases hstat : grpc_is_static_metadata_string sl = true
  · simp only [grpc_slice_intern, if_pos hstat]
    exact Or.inl trivial
  · have hstat' : grpc_is_static_metadata_string sl = false := by
      cases hb : grpc_is_static_metadata_string sl
      · rfl
      · exact absurd hb hstat
    cases hpr : staticProbe hashFn staticTbl
        (grpc_slice_hash hashFn staticTbl st sl)
        (sliceContent staticTbl st sl) with
    | some k =>
      simp only [grpc_slice_intern, hstat', Bool.false_eq_true, if_false, hpr]
      exact Or.inl trivial
    | none =>
      cases hfd : (scanChain (grpc_slice_hash hashFn staticTbl st sl)
          (sliceContent staticTbl st sl)
          ((st.shards.getD
            (SHARD_IDX (grpc_slice_hash hashFn staticTbl st sl))
            default).strs.getD
            (TABLE_IDX (grpc_slice_hash hashFn staticTbl st sl)
              (st.shards.getD
                (SHARD_IDX (grpc_slice_hash hashFn staticTbl st sl))
                default).capacity) [])).found with
      | some s =>
        simp only [grpc_slice_intern, hstat', Bool.false_eq_true, if_false,
          hpr, hfd]
        exact Or.inr ⟨_, _, rfl, Or.inl rfl⟩
      | none =>
        simp only [grpc_slice_intern, hstat', Bool.false_eq_true, if_false,
          hpr, hfd]
        refine Or.inr ⟨_, _, rfl, ?_⟩
        by_cases hgrow : (st.shards.getD
            (SHARD_IDX (grpc_slice_hash hashFn staticTbl st sl))
            default).count + 1 >
            (st.shards.getD
              (SHARD_IDX (grpc_slice_hash hashFn staticTbl st sl))
              default).capacity * 2
        · rw [if_pos hgrow]
          exact Or.inr rfl
        · rw [if_neg hgrow]
          exact Or.inl rfl

theorem applyOp_capOK {st : InternTable} {op : Op} {st' : InternTable}
    (h : applyOp hashFn staticTbl st op = some st')
    (hlen : st.shards.length = SHARD_COUNT)
    (hcap : ∀ sh ∈ st.shards, ∃ k,
      sh.capacity = INITIAL_SHARD_CAPACITY * 2 ^ k) :
    st'.shards.length = SHARD_COUNT ∧
    ∀ sh ∈ st'.shards, ∃ k,
      sh.capacity = INITIAL_SHARD_CAPACITY * 2 ^ k := by
  cases op with
  | intern sl =>
    have hst' : st' = (grpc_slice_intern hashFn staticTbl st sl).state :=
      (Option.some.inj h).symm
    subst hst'
    refine ⟨(intern_effect hashFn staticTbl st sl hlen).1, ?_⟩
    rcases intern_shards_cases hashFn staticTbl st sl with hc | ⟨si, sh2, hc, hcap2⟩
    · rw [hc]; exact hcap
    · rw [hc]
      intro sh hsh
      rcases List.mem_or_eq_of_mem_set hsh with hsh' | heq
      · exact hcap sh hsh'
      · by_cases hsi : si < st.shards.length
        · have hmem : st.shards.getD si default ∈ st.shards := by
            rw [List.getD_eq_getElem _ _ hsi]
            exact List.getElem_mem hsi
          obtain ⟨k, hk⟩ := hcap _ hmem
          rcases hcap2 with hc2 | hc2
          · exact ⟨k, by rw [heq, hc2, hk]⟩
          · exact ⟨k + 1, by rw [heq, hc2, hk, Nat.pow_succ]; ring⟩
        · -- out-of-range set is the identity, so sh2 is never linked in
          have hset : st.shards.set si sh2 = st.shards :=
            List.set_eq_of_length_le (by omega)
          rw [hset] at hsh
          exact hcap sh hsh
  | unref id =>
    have h' : interned_slice_unref st id = some st' := h
    obtain ⟨hl, _, _⟩ := unref_preserves h'
    refine ⟨by rw [hl, hlen], ?_⟩
    obtain ⟨s0, _, hcase | ⟨ch', hcase⟩⟩ := unref_shape h'
    · subst hcase
      intro sh hsh
      obtain ⟨sh0, hsh0, rfl⟩ := List.mem_map.1 hsh
      exact hcap sh0 hsh0
    · subst hcase
      intro sh hsh
      rcases List.mem_or_eq_of_mem_set hsh with hsh' | rfl
      · obtain ⟨sh0, hsh0, rfl⟩ := List.mem_map.1 hsh'
        exact hcap sh0 hsh0
      · have hSIlt : SHARD_IDX s0.hash < st.shards.length := by
          rw [hlen]; exact SHARD_IDX_lt _
        have hmem : st.shards.getD (SHARD_IDX s0.hash) default
            ∈ st.shards := by
          rw [List.getD_eq_getElem _ _ hSIlt]
          exact List.getElem_mem hSIlt
        obtain ⟨k, hk⟩ := hcap _ hmem
        refine ⟨k, ?_⟩
        show ((updateHandle st id (fun h =>
          { h with refcnt := h.refcnt - 1 })).shards.getD
            (SHARD_IDX s0.hash) default).capacity = _
        rw [(updateHandle_capacity_getD st id _ _).1, hk]

theorem applyOp_cap_mono {st : InternTable} {op : Op} {st' : InternTable}
    (h : applyOp hashFn staticTbl st op = some st')
    (hlen : st.shards.length = SHARD_COUNT) :
    ∀ i, (st.shards.getD i default).capacity
      ≤ (st'.shards.getD i default).capacity := by
  intro i
  cases op with
  | intern sl =>
    have hst' : st' = (grpc_slice_intern hashFn staticTbl st sl).state :=
      (Option.some.inj h).symm
    subst hst'
    obtain ⟨_, hfalse, htrue⟩ := intern_effect hashFn staticTbl st sl hlen
    cases halloc : (grpc_slice_intern hashFn staticTbl st sl).allocated with
    | false => rw [(hfalse halloc i).1]
    | true =>
      obtain ⟨si, _, hothers, _, hcapsi⟩ := htrue halloc
      by_cases hi : i = si
      · subst hi
        rw [hcapsi]
        split
        · omega
        · omega
      · rw [hothers i hi]
  | unref id =>
    rw [(unref_preserves h).2.2 i]

theorem runOps_capOK (ops : List Op) :
    ∀ (st : InternTable), st.shards.length = SHARD_COUNT →
    (∀ sh ∈ st.shards, ∃ k,
      sh.capacity = INITIAL_SHARD_CAPACITY * 2 ^ k) →
    ∀ {st' : InternTable},
      runOps hashFn staticTbl st ops = some st' →
      st'.shards.length = SHARD_COUNT ∧
      ∀ sh ∈ st'.shards, ∃ k,
        sh.capacity = INITIAL_SHARD_CAPACITY * 2 ^ k := by
  induction ops with
  | nil =>
    intro st hlen hcap st' h
    cases Option.some.inj h
    exact ⟨hlen, hcap⟩
  | cons op rest ih =>
    intro st hlen hcap st' h
    unfold runOps at h
    cases hap : applyOp hashFn staticTbl st op with
    | none => rw [hap] at h; exact absurd h (by simp)
    | some st1 =>
      rw [hap] at h
      obtain ⟨hl1, hc1⟩ := applyOp_capOK hashFn staticTbl hap hlen hcap
      exact ih st1 hl1 hc1 h

end OpsDiscipline

/-! ### Shutdown -/

theorem shutdownLoop_abort (flag : Bool) :
    ∀ shards : List slice_shard,
      (shutdownLoop flag shards).2
        = (flag && shards.any (fun sh => sh.count != 0)) := by
  intro shards
  induction shards with
  | nil => cases flag <;> rfl
  | cons sh rest ih =>
    by_cases hc : sh.count ≠ 0
    · cases flag
      · simp [shutdownLoop, if_pos hc, ih]
      · simp [shutdownLoop, if_pos hc, hc]
    · have hc0 : sh.count = 0 := by omega
      simp [shutdownLoop, hc0, ih]

theorem shutdownLoop_diags :
    ∀ shards : List slice_shard,
      (∀ sh ∈ shards, sh.count = sh.strs.flatten.length) →
      (shutdownLoop false shards).1
        = ((shards.map (fun sh => sh.strs.flatten)).flatten).map
          (fun s => s.content) := by
  intro shards
  induction shards with
  | nil => intro _; rfl
  | cons sh rest ih =>
    intro hcnt
    have hrest := fun sh' hsh' => hcnt sh' (List.mem_cons_of_mem _ hsh')
    by_cases hc : sh.count ≠ 0
    · simp only [shutdownLoop, if_pos hc, Bool.false_eq_true, if_false,
        List.map_cons, List.flatten_cons, List.map_append]
      rw [ih hrest]
    · have hc0 : sh.count = 0 := by omega
      have hflat : sh.strs.flatten = [] := by
        have h1 := hcnt sh (List.mem_cons_self _ _)
        rw [hc0] at h1
        exact List.eq_nil_of_length_eq_zero h1.symm
      simp only [shutdownLoop, if_neg (by omega : ¬ sh.count ≠ 0),
        List.map_cons, List.flatten_cons, List.map_append, hflat]
      rw [ih hrest]
      rfl

theorem shutdownLoop_clean (flag : Bool) :
    ∀ shards : List slice_shard, (∀ sh ∈ shards, sh.count = 0) →
      shutdownLoop flag shards = ([], false) := by
  intro shards
  induction shards with
  | nil => intro _; rfl
  | cons sh rest ih =>
    intro hall
    have hc0 : sh.count = 0 := hall sh (List.mem_cons_self _ _)
    simp only [shutdownLoop, if_neg (by omega : ¬ sh.count ≠ 0)]
    exact ih (fun sh' hsh' => hall sh' (List.mem_cons_of_mem _ hsh'))

/-! ### Miscellaneous support for the claim theorems -/

theorem scanChain_found_live (h : Nat) (c : List Nat) :
    ∀ chain s, (scanChain h c chain).found = some s → 2 ≤ s.refcnt := by
  intro chain
  induction chain with
  | nil => intro s hs; exact absurd hs (by simp [scanChain])
  | cons x rest ih =>
    intro s hs
    by_cases hm : x.hash = h ∧ x.content = c
    · by_cases hpre : x.refcnt = 0
      · have hcas : x.refcnt + 1 = 1 := by omega
        simp only [scanChain, if_pos hm, if_pos hpre, if_pos hcas] at hs
        exact ih s hs
      · simp only [scanChain, if_pos hm, if_neg hpre] at hs
        have : ({ x with refcnt := x.refcnt + 1 }) = s := Option.some.inj hs
        have h2 : s.refcnt = x.refcnt + 1 := by rw [← this]
        omega
    · simp only [scanChain, if_neg hm] at hs
      exact ih s hs

section ClaimSupport

variable (hashFn : List Nat → Nat) (staticTbl : List (List Nat))

theorem sliceContent_interned (st : InternTable) (id : Nat) (view : List Nat) :
    sliceContent staticTbl st (.interned id view) = view := by
  show (match findHandle st id with
    | some _ => view
    | none => view) = view
  cases findHandle st id <;> rfl

theorem interned_hash_cached {st : InternTable} {id : Nat} {view : List Nat}
    {s : interned_slice_refcount} (hfd : findHandle st id = some s)
    (hview : view = s.content) :
    grpc_slice_hash hashFn staticTbl st (.interned id view) = s.hash := by
  show (match findHandle st id with
    | some s' => interned_slice_hash hashFn s' view
    | none => hashFn view) = s.hash
  rw [hfd]
  show interned_slice_hash hashFn s view = s.hash
  rw [interned_slice_hash, if_pos hview]

theorem valid_interned_facts {st : InternTable} {id : Nat} {view : List Nat}
    (hInv : Inv hashFn staticTbl st)
    (hvalid : validSlice staticTbl st (.interned id view)) :
    ∃ s, findHandle st id = some s ∧ view = s.content ∧ s.id = id ∧
      s ∈ allHandles st ∧ s.hash = hashFn s.content ∧ 1 ≤ s.refcnt ∧
      staticProbe hashFn staticTbl s.hash s.content = none := by
  have hvalid' : (match findHandle st id with
    | some s => view = s.content
    | none => False) := hvalid
  cases hfd : findHandle st id with
  | none => rw [hfd] at hvalid'; exact absurd hvalid' (by simp)
  | some s =>
    rw [hfd] at hvalid'
    have hview : view = s.content := hvalid'
    have hsid : s.id = id := by simpa using List.find?_some hfd
    have hmem : s ∈ allHandles st := List.mem_of_find?_eq_some hfd
    obtain ⟨hh, hrc, _, hsp⟩ := Inv_handle_facts hashFn staticTbl hInv hmem
    exact ⟨s, rfl, hview, hsid, hmem, hh, hrc, hsp⟩

theorem init_shards_length :
    grpc_slice_intern_init.shards.length = SHARD_COUNT := by
  simp [grpc_slice_intern_init]

theorem init_capacities :
    ∀ sh ∈ grpc_slice_intern_init.shards, ∃ k,
      sh.capacity = INITIAL_SHARD_CAPACITY * 2 ^ k := by
  intro sh hsh
  have hsh' : sh = initShard := List.eq_of_mem_replicate hsh
  exact ⟨0, by rw [hsh']; simp [initShard]⟩

theorem handles_count_correct {st : InternTable}
    (hInv : Inv hashFn staticTbl st) :
    ∀ sh ∈ st.shards, sh.count = sh.strs.flatten.length := by
  intro sh hsh
  obtain ⟨i, hilt, hieq⟩ := List.mem_iff_getElem.1 hsh
  have hiSC : i < SHARD_COUNT := by rw [← hInv.1]; exact hilt
  have hwf := (hInv.2.1 i hiSC).2.2.1
  rw [List.getD_eq_getElem _ _ hilt, hieq] at hwf
  exact hwf

end ClaimSupport

/-! ## The claims -/

section Claims

variable (hashFn : List Nat → Nat) (staticTbl : List (List Nat))

/-- Claim C1 (canonicalization): under the table invariant, interning two byte
sequences with the same non-static content yields handles with the same
identity (the same record id), regardless of the order of the two calls: the
first `grpc_slice_intern` returns some record id for the content and the
second call, on the state the first produced, returns that same id. -/
theorem claim_C1 {st : InternTable} (c : List Nat)
    (hInv : Inv hashFn staticTbl st) (hc : c ∉ staticTbl) :
    ∃ id, (grpc_slice_intern hashFn staticTbl st (.transient c)).slice
        = .interned id c ∧
      (grpc_slice_intern hashFn staticTbl
          (grpc_slice_intern hashFn staticTbl st (.transient c)).state
          (.transient c)).slice = .interned id c := by
  have hns : grpc_is_static_metadata_string (.transient c) = false := rfl
  have hcont : sliceContent staticTbl st (.transient c) = c := rfl
  have hhash : grpc_slice_hash hashFn staticTbl st (.transient c)
      = hashFn c := rfl
  have hcont1 : sliceContent staticTbl
      (grpc_slice_intern hashFn staticTbl st (.transient c)).state
      (.transient c) = c := rfl
  have hhash1 : grpc_slice_hash hashFn staticTbl
      (grpc_slice_intern hashFn staticTbl st (.transient c)).state
      (.transient c) = hashFn c := rfl
  by_cases hex : ∃ x ∈ allHandles st, x.content = c
  · obtain ⟨x, hx, hxc⟩ := hex
    obtain ⟨hslice, _, _, _, hInv1, hfind1, _, _⟩ :=
      intern_found hashFn staticTbl hInv hns hcont hhash hx hxc
    have hs1mem : ({ x with refcnt := x.refcnt + 1 }) ∈ allHandles
        (grpc_slice_intern hashFn staticTbl st (.transient c)).state :=
      List.mem_of_find?_eq_some hfind1
    obtain ⟨hslice2, _⟩ :=
      intern_found hashFn staticTbl hInv1 hns hcont1 hhash1 hs1mem
        (show ({ x with refcnt := x.refcnt + 1 }).content = c from hxc)
    refine ⟨x.id, ?_, ?_⟩
    · rw [hslice, hxc]
    · rw [hslice2, hxc]
  · push_neg at hex
    have hsp : staticProbe hashFn staticTbl (hashFn c) c = none :=
      staticProbe_none_of_not_mem hashFn staticTbl hc
    obtain ⟨hslice, _, _, _, hInv1, hperm⟩ :=
      intern_create hashFn staticTbl hInv hns hcont hhash hex hsp
    have hnewmem : (⟨st.next_id, 1, hashFn c, c⟩ : interned_slice_refcount)
        ∈ allHandles
          (grpc_slice_intern hashFn staticTbl st (.transient c)).state :=
      hperm.symm.subset (List.mem_cons_self _ _)
    obtain ⟨hslice2, _⟩ :=
      intern_found hashFn staticTbl hInv1 hns hcont1 hhash1 hnewmem rfl
    exact ⟨st.next_id, hslice, hslice2⟩

/-- Claim C2 (resurrection guard): during the bucket-chain scan, the
compare-and-swap from 1 back to 0 that follows a fetch-and-add observing a
pre-increment count of 0 never fails; when every matching entry of the chain
is dying (count 0) the scan reports a miss and leaves the chain — including
each dying entry, which its destroyer alone will unlink — unchanged; a record
returned by the scan is never a dying entry; and a miss makes
`grpc_slice_intern` fall through to allocating a fresh record rather than
returning a dying one. -/
theorem claim_C2 (H : Nat) (C : List Nat)
    (CH : List interned_slice_refcount)
    (hdying : ∀ s ∈ CH, s.hash = H → s.content = C → s.refcnt = 0) :
    (scanChain H C CH).casFailed = false ∧
    (scanChain H C CH).found = none ∧
    (scanChain H C CH).chain = CH ∧
    (∀ s, (scanChain H C CH).found = some s → 2 ≤ s.refcnt) ∧
    ∀ (st : InternTable) (sl : grpc_slice),
      grpc_is_static_metadata_string sl = false →
      staticProbe hashFn staticTbl (grpc_slice_hash hashFn staticTbl st sl)
        (sliceContent staticTbl st sl) = none →
      grpc_slice_hash hashFn staticTbl st sl = H →
      sliceContent staticTbl st sl = C →
      internChainAt st H = CH →
      (grpc_slice_intern hashFn staticTbl st sl).allocated = true ∧
      (grpc_slice_intern hashFn staticTbl st sl).slice
        = .interned st.next_id C := by
  have hnone : (scanChain H C CH).found = none :=
    (scanChain_none_iff H C CH).2 hdying
  refine ⟨scanChain_casFailed H C CH, hnone,
    scanChain_none_chain H C CH hnone,
    fun s hs => scanChain_found_live H C CH s hs,
    ?_⟩
  intro st sl hns hsp hH hC hCH
  have hCH' : (st.shards.getD (SHARD_IDX H) default).strs.getD
      (TABLE_IDX H (st.shards.getD (SHARD_IDX H) default).capacity) []
      = CH := hCH
  have hsp' : staticProbe hashFn staticTbl H C = none := hH ▸ hC ▸ hsp
  simp only [grpc_slice_intern, hns, Bool.false_eq_true, if_false,
    hH, hC, hCH', hsp', hnone]
  exact ⟨trivial, trivial⟩

/-- Claim C3 (static precedence), amended: interning a byte sequence whose
content is static string `i` of a duplicate-free static table returns the
corresponding static handle with the state unchanged, no shard lock taken and
nothing allocated — provided the string's hash stays clear of the `uint32_t`
wrap of the lookup's probe arithmetic (`hash(i) + max_probe < 2^32`).  The
original claim's "for every choice of hash seed" is false of the source: the
lookup loop (slice_intern.c:204) computes `hash + i` in `uint32_t`, which
wraps modulo `2^32`, while the build (slice_intern.c:283) adds in `size_t`,
so a static string whose hash lands within its insertion probe offset of
`2^32` is inserted at one slot but probed at another, the lookup misses, and
the call takes the locking, allocating dynamic path
(`claim_C3_counterexample`). -/
theorem claim_C3 (st : InternTable) (i : Nat) (hi : i < staticTbl.length)
    (hnd : staticTbl.Nodup)
    (hsmall : staticHv hashFn staticTbl i
      + (buildStatic hashFn staticTbl).maxProbe < UINT32_MOD) :
    grpc_slice_intern hashFn staticTbl st (.transient (staticTbl.getD i []))
      = ⟨st, .staticRef i, false, false⟩ := by
  have hsp : staticProbe hashFn staticTbl (hashFn (staticTbl.getD i []))
      (staticTbl.getD i []) = some i :=
    staticProbe_self hashFn staticTbl hi hnd hsmall
  simp only [grpc_slice_intern, grpc_is_static_metadata_string,
    Bool.false_eq_true, if_false, sliceContent, grpc_slice_hash, hsp]

/-- Refutation of the original claim C3: with a three-string static table and
a hash function sending string 1 to `2^32 - 1` (colliding modulo the table
size 12 with string 0's hash 3), the build inserts string 1 at probe offset 1
— slot `(2^32 - 1 + 1) % 12 = 4` in `size_t` arithmetic — but the lookup's
`uint32_t` sum wraps to slot `0 % 12 = 0`, so interning the static content
`[1]` misses the static table, takes the shard lock and allocates. -/
theorem claim_C3_counterexample :
    [1] = ([[0], [1], [2]] : List (List Nat)).getD 1 [] ∧
    ([[0], [1], [2]] : List (List Nat)).Nodup ∧
    (grpc_slice_intern
      (fun c : List Nat =>
        if c = [0] then 3 else if c = [1] then 4294967295 else 5)
      [[0], [1], [2]] grpc_slice_intern_init
      (.transient [1])).tookLock = true ∧
    (grpc_slice_intern
      (fun c : List Nat =>
        if c = [0] then 3 else if c = [1] then 4294967295 else 5)
      [[0], [1], [2]] grpc_slice_intern_init
      (.transient [1])).allocated = true := by
  refine ⟨rfl, by decide, ?_, ?_⟩ <;> decide

/-- Claim C4 (last-release destruction and unreachability): under the
invariant no reachable record ever has count 0; releasing the last reference
of a record succeeds, after which the record is no longer resolvable, the
count of the shard `SHARD_IDX(hash)` that owned it has dropped by one, every
other shard is untouched, the invariant (hence 0-unreachability) still holds;
and a record missing from the bucket chain its hash selects makes
`interned_slice_destroy` fatal (`none`), never a recoverable error. -/
theorem claim_C4 {st : InternTable} {id : Nat}
    {s0 : interned_slice_refcount}
    (hInv : Inv hashFn staticTbl st)
    (hfind : findHandle st id = some s0)
    (hrc : s0.refcnt = 1) :
    (∀ x ∈ allHandles st, 1 ≤ x.refcnt) ∧
    (∃ st', interned_slice_unref st id = some st' ∧
      findHandle st' id = none ∧
      (st'.shards.getD (SHARD_IDX s0.hash) default).count + 1
        = (st.shards.getD (SHARD_IDX s0.hash) default).count ∧
      (∀ i, i ≠ SHARD_IDX s0.hash →
        st'.shards.getD i default = st.shards.getD i default) ∧
      st'.next_id = st.next_id ∧
      Inv hashFn staticTbl st' ∧
      ∀ x ∈ allHandles st', 1 ≤ x.refcnt) ∧
    ∀ (t : InternTable) (s : interned_slice_refcount),
      (∀ x ∈ internChainAt t s.hash, x.id ≠ s.id) →
      interned_slice_destroy t s = none := by
  refine ⟨fun x hx =>
      (Inv_handle_facts hashFn staticTbl hInv hx).2.1, ?_, ?_⟩
  · obtain ⟨st', h1, h2, _, h4, h5, h6, hInv'⟩ :=
      unref_last hashFn staticTbl hInv hfind hrc
    exact ⟨st', h1, h2, h4, h5, h6, hInv',
      fun x hx => (Inv_handle_facts hashFn staticTbl hInv' hx).2.1⟩
  · intro t s hmiss
    exact destroy_fatal hmiss

/-- Claim C6 (growth preserves content and identity): growing a well-formed
shard with pairwise-distinct records doubles the capacity, keeps the count,
relinks exactly the same records (a permutation — no record's content, hash or
refcount is modified), places every record in the bucket its hash selects
modulo the new capacity, and a subsequent lookup of a previously interned
record's content in the new bucket array finds that very record (its identity,
with its count bumped by the lookup). -/
theorem claim_C6 {i : Nat} {sh : slice_shard}
    (hwf : shardWF hashFn i sh)
    (hpw : sh.strs.flatten.Pairwise
      (fun a b => a.id ≠ b.id ∧ a.content ≠ b.content))
    {x : interned_slice_refcount} (hx : x ∈ sh.strs.flatten) :
    (grow_shard sh).capacity = sh.capacity * 2 ∧
    (grow_shard sh).count = sh.count ∧
    (grow_shard sh).strs.flatten.Perm sh.strs.flatten ∧
    (∀ j < sh.capacity * 2, ∀ y ∈ (grow_shard sh).strs.getD j [],
      TABLE_IDX y.hash (sh.capacity * 2) = j) ∧
    x ∈ (grow_shard sh).strs.getD (TABLE_IDX x.hash (sh.capacity * 2)) [] ∧
    (scanChain x.hash x.content
        ((grow_shard sh).strs.getD
          (TABLE_IDX x.hash (sh.capacity * 2)) [])).found
      = some { x with refcnt := x.refcnt + 1 } := by
  obtain ⟨hsl, hcp, hcnt, hbuckets⟩ := hwf
  obtain ⟨hc2, hct, hl2, hperm, hbk⟩ := grow_shard_spec sh hcp
  have hcap2 : 0 < sh.capacity * 2 := by omega
  -- the record keeps a positive count
  have hxrc : 1 ≤ x.refcnt := by
    obtain ⟨ch, hch, hxc⟩ := List.mem_flatten.1 hx
    obtain ⟨j, hjlt, hjeq⟩ := List.mem_iff_getElem.1 hch
    have hchD : sh.strs.getD j [] = ch := by
      rw [List.getD_eq_getElem _ _ hjlt, hjeq]
    exact (hbuckets j hjlt x (hchD ▸ hxc)).2.2.2
  -- locate the record in the grown bucket array
  have hxnew : x ∈ (grow_shard sh).strs.flatten := hperm.mem_iff.2 hx
  obtain ⟨ch, hch, hxc⟩ := List.mem_flatten.1 hxnew
  obtain ⟨j, hjlt, hjeq⟩ := List.mem_iff_getElem.1 hch
  have hjcap : j < sh.capacity * 2 := by rw [← hl2]; exact hjlt
  have hchD : (grow_shard sh).strs.getD j [] = ch := by
    rw [List.getD_eq_getElem _ _ hjlt, hjeq]
  have hTI : TABLE_IDX x.hash (sh.capacity * 2) = j :=
    hbk j hjcap x (hchD ▸ hxc)
  have hxbucket : x ∈ (grow_shard sh).strs.getD
      (TABLE_IDX x.hash (sh.capacity * 2)) [] := by
    rw [hTI, hchD]; exact hxc
  refine ⟨hc2, hct, hperm, hbk, hxbucket, ?_⟩
  -- pairwise distinctness carries over to the new bucket chain
  have hpwnew : (grow_shard sh).strs.flatten.Pairwise
      (fun a b => a.id ≠ b.id ∧ a.content ≠ b.content) :=
    (hperm.pairwise_iff
      (fun hab => ⟨Ne.symm hab.1, Ne.symm hab.2⟩)).2 hpw
  have hjlen : TABLE_IDX x.hash (sh.capacity * 2)
      < (grow_shard sh).strs.length := by rw [hTI]; exact hjlt
  have hpwchain : ((grow_shard sh).strs.getD
      (TABLE_IDX x.hash (sh.capacity * 2)) []).Pairwise
      (fun a b => a.id ≠ b.id ∧ a.content ≠ b.content) := by
    obtain ⟨C, D, _, hCD⟩ := flatten_chain_decomp (grow_shard sh).strs hjlen
    refine List.Pairwise.sublist ?_ hpwnew
    rw [hCD]
    exact sublist_append_middle C D _
  obtain ⟨l1, l2, hdecomp⟩ := List.append_of_mem hxbucket
  have hl1dead : ∀ y ∈ l1, y.hash = x.hash → y.content = x.content →
      y.refcnt = 0 := by
    intro y hy _ hyc
    rw [hdecomp] at hpwchain
    exact absurd hyc ((List.pairwise_append.1 hpwchain).2.2 y hy x
      (List.mem_cons_self _ _)).2
  rw [hdecomp,
    scanChain_found_spec x.hash x.content l1 x l2 hl1dead rfl rfl hxrc]

/-- Claim C7 (growth trigger and shape): starting from the freshly
initialized table, after any successful sequence of intern and unref
operations there are still 32 shards and every shard's capacity is the
initial capacity 8 times a power of two; no further operation ever shrinks
any shard's capacity; and whenever an intern call allocates, the affected
shard's count rises by one, its capacity becomes exactly double the old
capacity when the new count exceeds twice the old capacity and stays
unchanged otherwise, and all other shards are untouched. -/
theorem claim_C7 (ops : List Op) {st' : InternTable}
    (hrun : runOps hashFn staticTbl grpc_slice_intern_init ops = some st') :
    st'.shards.length = SHARD_COUNT ∧
    (∀ sh ∈ st'.shards, ∃ k,
      sh.capacity = INITIAL_SHARD_CAPACITY * 2 ^ k) ∧
    (∀ (op : Op) (st'' : InternTable),
      applyOp hashFn staticTbl st' op = some st'' →
      ∀ i, (st'.shards.getD i default).capacity
        ≤ (st''.shards.getD i default).capacity) ∧
    ∀ sl, (grpc_slice_intern hashFn staticTbl st' sl).allocated = true →
      ∃ si < SHARD_COUNT,
        ((grpc_slice_intern hashFn staticTbl st' sl).state.shards.getD si
            default).capacity
          = (if (st'.shards.getD si default).count + 1 >
                (st'.shards.getD si default).capacity * 2
             then (st'.shards.getD si default).capacity * 2
             else (st'.shards.getD si default).capacity) ∧
        ((grpc_slice_intern hashFn staticTbl st' sl).state.shards.getD si
            default).count = (st'.shards.getD si default).count + 1 ∧
        ∀ i, i ≠ si →
          (grpc_slice_intern hashFn staticTbl st' sl).state.shards.getD i
            default = st'.shards.getD i default := by
  obtain ⟨hlen, hcap⟩ := runOps_capOK hashFn staticTbl ops
    grpc_slice_intern_init init_shards_length init_capacities hrun
  refine ⟨hlen, hcap, ?_, ?_⟩
  · intro op st'' h i
    exact applyOp_cap_mono hashFn staticTbl h hlen i
  · intro sl halloc
    obtain ⟨si, hsi, hothers, hcount, hcap2⟩ :=
      (intern_effect hashFn staticTbl st' sl hlen).2.2 halloc
    exact ⟨si, hsi, hcap2, hcount, hothers⟩

/-- Claim C8 (intern_if_static behavior), amended: under the invariant, for a
valid slice and a duplicate-free static table, `grpc_slice_static_intern`
leaves the dynamic shard tables entirely untouched (the state is unchanged,
so nothing is allocated); if the slice's content equals static string `i`
whose hash stays clear of the `uint32_t` wrap of the probe arithmetic
(`hash(i) + max_probe < 2^32`) it rewrites the slice to the canonical static
handle `i`; and if the content matches no static string the input slice is
returned entirely unchanged.  The original claim's unconditional "rewrites
whenever the content matches a static entry" is false of the source: the
probe loop (slice_intern.c:184-186) computes `hash + i` in `uint32_t`, which
wraps modulo `2^32` and can miss a slot the build filled with `size_t`
arithmetic, leaving the slice unchanged (`claim_C8_counterexample`). -/
theorem claim_C8 {st : InternTable} {sl : grpc_slice}
    (hInv : Inv hashFn staticTbl st)
    (hvalid : validSlice staticTbl st sl)
    (hnd : staticTbl.Nodup) :
    (grpc_slice_static_intern hashFn staticTbl st sl).1 = st ∧
    (∀ i < staticTbl.length,
      staticHv hashFn staticTbl i
        + (buildStatic hashFn staticTbl).maxProbe < UINT32_MOD →
      grpc_is_static_metadata_string sl = false →
      sliceContent staticTbl st sl = staticTbl.getD i [] →
      (grpc_slice_static_intern hashFn staticTbl st sl).2 = .staticRef i) ∧
    (sliceContent staticTbl st sl ∉ staticTbl →
      (grpc_slice_static_intern hashFn staticTbl st sl).2 = sl) := by
  cases sl with
  | staticRef idx =>
    refine ⟨rfl, ?_, fun _ => rfl⟩
    intro i _ _ hns _
    exact absurd hns (by simp [grpc_is_static_metadata_string])
  | transient c =>
    have hns : grpc_is_static_metadata_string (.transient c) = false := rfl
    refine ⟨?_, ?_, ?_⟩
    · cases hp : staticProbe hashFn staticTbl (hashFn c) c with
      | some k =>
        simp only [grpc_slice_static_intern, hns, Bool.false_eq_true,
          if_false, sliceContent, grpc_slice_hash, hp]
      | none =>
        simp only [grpc_slice_static_intern, hns, Bool.false_eq_true,
          if_false, sliceContent, grpc_slice_hash, hp]
    · intro i hi hsmall _ hcont
      have hcont' : c = staticTbl.getD i [] := hcont
      have hp : staticProbe hashFn staticTbl (hashFn c) c = some i := by
        rw [hcont']
        exact staticProbe_self hashFn staticTbl hi hnd hsmall
      simp only [grpc_slice_static_intern, hns, Bool.false_eq_true,
        if_false, sliceContent, grpc_slice_hash, hp]
    · intro hnm
      have hp : staticProbe hashFn staticTbl (hashFn c) c = none :=
        staticProbe_none_of_not_mem hashFn staticTbl hnm
      simp only [grpc_slice_static_intern, hns, Bool.false_eq_true,
        if_false, sliceContent, grpc_slice_hash, hp]
  | interned id view =>
    have hns : grpc_is_static_metadata_string (.interned id view)
        = false := rfl
    obtain ⟨s, hfd, hview, hsid, hmem, hh, hrc, hsp0⟩ :=
      valid_interned_facts hashFn staticTbl hInv hvalid
    have hhash : grpc_slice_hash hashFn staticTbl st (.interned id view)
        = s.hash := interned_hash_cached hashFn staticTbl hfd hview
    have hcont : sliceContent staticTbl st (.interned id view) = s.content :=
      (sliceContent_interned staticTbl st id view).trans hview
    have hp : staticProbe hashFn staticTbl
        (grpc_slice_hash hashFn staticTbl st (.interned id view))
        (sliceContent staticTbl st (.interned id view)) = none := by
      rw [hhash, hcont]; exact hsp0
    refine ⟨?_, ?_, ?_⟩
    · simp only [grpc_slice_static_intern, hns, Bool.false_eq_true,
        if_false, hp]
    · intro i hi hsmall _ hconti
      exfalso
      have hpi : staticProbe hashFn staticTbl
          (staticHv hashFn staticTbl i) (staticTbl.getD i []) = some i :=
        staticProbe_self hashFn staticTbl hi hnd hsmall
      have hcs : s.content = staticTbl.getD i [] := by
        rw [← hcont]; exact hconti
      have hhv : staticHv hashFn staticTbl i = s.hash := by
        show hashFn (staticTbl.getD i []) = s.hash
        rw [← hcs, ← hh]
      rw [hhv, ← hcs] at hpi
      rw [hsp0] at hpi
      exact absurd hpi (by simp)
    · intro _
      simp only [grpc_slice_static_intern, hns, Bool.false_eq_true,
        if_false, hp]

/-- Refutation of the original claim C8: in the wrap fixture of
`claim_C3_counterexample` the slice `[1]` carries the content of static
string 1, yet `grpc_slice_static_intern` leaves it entirely unchanged — the
probe's `uint32_t` sum wraps to a slot the `size_t` build never filled for
that string, so the promised rewrite to the canonical static handle does not
happen. -/
theorem claim_C8_counterexample :
    [1] = ([[0], [1], [2]] : List (List Nat)).getD 1 [] ∧
    ([[0], [1], [2]] : List (List Nat)).Nodup ∧
    (grpc_slice_static_intern
      (fun c : List Nat =>
        if c = [0] then 3 else if c = [1] then 4294967295 else 5)
      [[0], [1], [2]] grpc_slice_intern_init
      (.transient [1])).2 = .transient [1] := by
  refine ⟨rfl, by decide, ?_⟩
  decide

/-- Claim C9 (shutdown leak handling): under the invariant (whose per-shard
counts agree with the linked records), shutdown aborts exactly when the
external abort-on-leaks flag is set and some shard still has a nonzero count;
with the flag clear it emits exactly one diagnostic record — the content dump
— per still-live handle, in table order; and when every shard's count is zero
no diagnostics at all are produced. -/
theorem claim_C9 {st : InternTable} (hInv : Inv hashFn staticTbl st)
    (abortFlag : Bool) :
    (grpc_slice_intern_shutdown st abortFlag).2
      = (abortFlag && st.shards.any (fun sh => sh.count != 0)) ∧
    (grpc_slice_intern_shutdown st false).1
      = (allHandles st).map (fun s => s.content) ∧
    ((∀ sh ∈ st.shards, sh.count = 0) →
      (grpc_slice_intern_shutdown st abortFlag).1 = []) := by
  refine ⟨shutdownLoop_abort abortFlag st.shards, ?_, ?_⟩
  · exact shutdownLoop_diags st.shards
      (handles_count_correct hashFn staticTbl hInv)
  · intro hclean
    show (shutdownLoop abortFlag st.shards).1 = []
    rw [shutdownLoop_clean abortFlag st.shards hclean]

/-- Claim C10 (re-intern idempotence and cached-hash fast path): under the
invariant, re-interning a slice previously returned by the interner — an
interned slice whose byte view is its record's inline storage — takes the
cached-hash fast path (the computed hash is the record's cached hash, which is
the hash of its content, i.e. the hash computed at creation), allocates
nothing, returns a slice with the same record identity, and increments exactly
that record's refcount by one, leaving the allocation counter unchanged. -/
theorem claim_C10 {st : InternTable} {id : Nat} {view : List Nat}
    (hInv : Inv hashFn staticTbl st)
    (hvalid : validSlice staticTbl st (.interned id view)) :
    ∃ s0, findHandle st id = some s0 ∧ s0.id = id ∧
      grpc_slice_hash hashFn staticTbl st (.interned id view) = s0.hash ∧
      s0.hash = hashFn s0.content ∧
      (grpc_slice_intern hashFn staticTbl st (.interned id view)).allocated
        = false ∧
      (grpc_slice_intern hashFn staticTbl st (.interned id view)).slice
        = .interned s0.id s0.content ∧
      findHandle
        (grpc_slice_intern hashFn staticTbl st (.interned id view)).state
        s0.id = some { s0 with refcnt := s0.refcnt + 1 } ∧
      (∀ id', id' ≠ s0.id →
        findHandle
          (grpc_slice_intern hashFn staticTbl st (.interned id view)).state
          id' = findHandle st id') ∧
      (grpc_slice_intern hashFn staticTbl st
        (.interned id view)).state.next_id = st.next_id := by
  obtain ⟨s0, hfd, hview, hsid, hmem, hh, hrc, hsp0⟩ :=
    valid_interned_facts hashFn staticTbl hInv hvalid
  have hns : grpc_is_static_metadata_string (.interned id view)
      = false := rfl
  have hhash : grpc_slice_hash hashFn staticTbl st (.interned id view)
      = s0.hash := interned_hash_cached hashFn staticTbl hfd hview
  have hcont : sliceContent staticTbl st (.interned id view) = s0.content :=
    (sliceContent_interned staticTbl st id view).trans hview
  have hhash' : grpc_slice_hash hashFn staticTbl st (.interned id view)
      = hashFn s0.content := hhash.trans hh
  obtain ⟨hslice, _, halloc, hnid, _, hfind1, hothers, _⟩ :=
    intern_found hashFn staticTbl hInv hns hcont hhash' hmem rfl
  exact ⟨s0, hfd, hsid, hhash, hh, halloc, hslice, hfind1, hothers, hnid⟩

end Claims

/-! ## Concrete evaluations of the claims

Each theorem below instantiates a claim at a concrete hash function
(`fun c => c.sum`), a concrete two-string static table `[[1], [2]]` and
concrete states, with every hypothesis checked by evaluation. -/

theorem claim_C1_check :
    ∃ id, (grpc_slice_intern (fun c : List Nat => c.sum) [[1], [2]]
        grpc_slice_intern_init (.transient [5])).slice
        = .interned id [5] ∧
      (grpc_slice_intern (fun c : List Nat => c.sum) [[1], [2]]
          (grpc_slice_intern (fun c : List Nat => c.sum) [[1], [2]]
            grpc_slice_intern_init (.transient [5])).state
          (.transient [5])).slice = .interned id [5] :=
  claim_C1 (fun c : List Nat => c.sum) [[1], [2]] [5] (by decide) (by decide)

theorem claim_C2_check :
    (scanChain 0 [] [⟨7, 0, 0, []⟩]).casFailed = false ∧
    (scanChain 0 [] [⟨7, 0, 0, []⟩]).found = none ∧
    (scanChain 0 [] [⟨7, 0, 0, []⟩]).chain = [⟨7, 0, 0, []⟩] :=
  have h := claim_C2 (fun c : List Nat => c.sum) [[1], [2]] 0 []
    [⟨7, 0, 0, []⟩] (by decide)
  ⟨h.1, h.2.1, h.2.2.1⟩

theorem claim_C3_check :
    grpc_slice_intern (fun c : List Nat => c.sum) [[1], [2]]
        grpc_slice_intern_init (.transient [2])
      = ⟨grpc_slice_intern_init, .staticRef 1, false, false⟩ :=
  claim_C3 (fun c : List Nat => c.sum) [[1], [2]] grpc_slice_intern_init 1
    (by decide) (by decide) (by decide)

theorem claim_C4_check :
    (∀ x ∈ allHandles (grpc_slice_intern (fun c : List Nat => c.sum)
        [[1], [2]] grpc_slice_intern_init (.transient [5])).state,
      1 ≤ x.refcnt) ∧
    (∃ st', interned_slice_unref
        (grpc_slice_intern (fun c : List Nat => c.sum) [[1], [2]]
          grpc_slice_intern_init (.transient [5])).state 0 = some st' ∧
      findHandle st' 0 = none ∧
      (st'.shards.getD (SHARD_IDX 5) default).count + 1
        = ((grpc_slice_intern (fun c : List Nat => c.sum) [[1], [2]]
            grpc_slice_intern_init (.transient [5])).state.shards.getD
            (SHARD_IDX 5) default).count ∧
      (∀ i, i ≠ SHARD_IDX 5 →
        st'.shards.getD i default
          = (grpc_slice_intern (fun c : List Nat => c.sum) [[1], [2]]
              grpc_slice_intern_init
              (.transient [5])).state.shards.getD i default) ∧
      st'.next_id = (grpc_slice_intern (fun c : List Nat => c.sum)
        [[1], [2]] grpc_slice_intern_init (.transient [5])).state.next_id ∧
      Inv (fun c : List Nat => c.sum) [[1], [2]] st' ∧
      ∀ x ∈ allHandles st', 1 ≤ x.refcnt) ∧
    ∀ (t : InternTable) (s : interned_slice_refcount),
      (∀ x ∈ internChainAt t s.hash, x.id ≠ s.id) →
      interned_slice_destroy t s = none :=
  @claim_C4 (fun c : List Nat => c.sum) [[1], [2]]
    (grpc_slice_intern (fun c : List Nat => c.sum) [[1], [2]]
      grpc_slice_intern_init (.transient [5])).state 0 ⟨0, 1, 5, [5]⟩
    (by decide) (by decide) rfl

theorem claim_C6_check :
    (grow_shard ⟨[[⟨0, 1, 5, [5]⟩]], 1, 1⟩).capacity = 1 * 2 ∧
    (grow_shard ⟨[[⟨0, 1, 5, [5]⟩]], 1, 1⟩).count = 1 ∧
    (grow_shard ⟨[[⟨0, 1, 5, [5]⟩]], 1, 1⟩).strs.flatten.Perm
      ([[⟨0, 1, 5, [5]⟩]] : List (List interned_slice_refcount)).flatten ∧
    (∀ j < 1 * 2, ∀ y ∈ (grow_shard ⟨[[⟨0, 1, 5, [5]⟩]], 1, 1⟩).strs.getD
        j [], TABLE_IDX y.hash (1 * 2) = j) ∧
    (⟨0, 1, 5, [5]⟩ : interned_slice_refcount)
      ∈ (grow_shard ⟨[[⟨0, 1, 5, [5]⟩]], 1, 1⟩).strs.getD
        (TABLE_IDX 5 (1 * 2)) [] ∧
    (scanChain 5 [5]
        ((grow_shard ⟨[[⟨0, 1, 5, [5]⟩]], 1, 1⟩).strs.getD
          (TABLE_IDX 5 (1 * 2)) [])).found = some ⟨0, 2, 5, [5]⟩ :=
  @claim_C6 (fun c : List Nat => c.sum) 5 ⟨[[⟨0, 1, 5, [5]⟩]], 1, 1⟩
    (by decide) (by decide) ⟨0, 1, 5, [5]⟩ (by decide)

theorem claim_C7_check :
    (grpc_slice_intern (fun c : List Nat => c.sum) [[1], [2]]
      grpc_slice_intern_init
      (.transient [5])).state.shards.length = SHARD_COUNT ∧
    (∀ sh ∈ (grpc_slice_intern (fun c : List Nat => c.sum) [[1], [2]]
        grpc_slice_intern_init (.transient [5])).state.shards, ∃ k,
      sh.capacity = INITIAL_SHARD_CAPACITY * 2 ^ k) ∧
    (∀ (op : Op) (st'' : InternTable),
      applyOp (fun c : List Nat => c.sum) [[1], [2]]
        (grpc_slice_intern (fun c : List Nat => c.sum) [[1], [2]]
          grpc_slice_intern_init (.transient [5])).state op = some st'' →
      ∀ i, ((grpc_slice_intern (fun c : List Nat => c.sum) [[1], [2]]
          grpc_slice_intern_init
          (.transient [5])).state.shards.getD i default).capacity
        ≤ (st''.shards.getD i default).capacity) ∧
    ∀ sl, (grpc_slice_intern (fun c : List Nat => c.sum) [[1], [2]]
        (grpc_slice_intern (fun c : List Nat => c.sum) [[1], [2]]
          grpc_slice_intern_init (.transient [5])).state sl).allocated
        = true →
      ∃ si < SHARD_COUNT,
        ((grpc_slice_intern (fun c : List Nat => c.sum) [[1], [2]]
            (grpc_slice_intern (fun c : List Nat => c.sum) [[1], [2]]
              grpc_slice_intern_init (.transient [5])).state
            sl).state.shards.getD si default).capacity
          = (if ((grpc_slice_intern (fun c : List Nat => c.sum) [[1], [2]]
                  grpc_slice_intern_init
                  (.transient [5])).state.shards.getD si default).count + 1 >
                ((grpc_slice_intern (fun c : List Nat => c.sum) [[1], [2]]
                  grpc_slice_intern_init
                  (.transient [5])).state.shards.getD si
                  default).capacity * 2
             then ((grpc_slice_intern (fun c : List Nat => c.sum) [[1], [2]]
                  grpc_slice_intern_init
                  (.transient [5])).state.shards.getD si
                  default).capacity * 2
             else ((grpc_slice_intern (fun c : List Nat => c.sum) [[1], [2]]
                  grpc_slice_intern_init
                  (.transient [5])).state.shards.getD si
                  default).capacity) ∧
        ((grpc_slice_intern (fun c : List Nat => c.sum) [[1], [2]]
            (grpc_slice_intern (fun c : List Nat => c.sum) [[1], [2]]
              grpc_slice_intern_init (.transient [5])).state
            sl).state.shards.getD si default).count
          = ((grpc_slice_intern (fun c : List Nat => c.sum) [[1], [2]]
              grpc_slice_intern_init
              (.transient [5])).state.shards.getD si default).count + 1 ∧
        ∀ i, i ≠ si →
          (grpc_slice_intern (fun c : List Nat => c.sum) [[1], [2]]
            (grpc_slice_intern (fun c : List Nat => c.sum) [[1], [2]]
              grpc_slice_intern_init (.transient [5])).state
            sl).state.shards.getD i default
          = (grpc_slice_intern (fun c : List Nat => c.sum) [[1], [2]]
              grpc_slice_intern_init
              (.transient [5])).state.shards.getD i default :=
  @claim_C7 (fun c : List Nat => c.sum) [[1], [2]]
    [.intern (.transient [5])]
    (grpc_slice_intern (fun c : List Nat => c.sum) [[1], [2]]
      grpc_slice_intern_init (.transient [5])).state rfl

theorem claim_C8_check :
    (grpc_slice_static_intern (fun c : List Nat => c.sum) [[1], [2]]
        grpc_slice_intern_init (.transient [2])).1
      = grpc_slice_intern_init ∧
    (∀ i < 2,
      staticHv (fun c : List Nat => c.sum) [[1], [2]] i
        + (buildStatic (fun c : List Nat => c.sum) [[1], [2]]).maxProbe
        < UINT32_MOD →
      grpc_is_static_metadata_string (.transient [2]) = false →
      sliceContent [[1], [2]] grpc_slice_intern_init (.transient [2])
        = [[1], [2]].getD i [] →
      (grpc_slice_static_intern (fun c : List Nat => c.sum) [[1], [2]]
        grpc_slice_intern_init (.transient [2])).2 = .staticRef i) ∧
    (sliceContent [[1], [2]] grpc_slice_intern_init (.transient [2])
        ∉ ([[1], [2]] : List (List Nat)) →
      (grpc_slice_static_intern (fun c : List Nat => c.sum) [[1], [2]]
        grpc_slice_intern_init (.transient [2])).2 = .transient [2]) :=
  @claim_C8 (fun c : List Nat => c.sum) [[1], [2]]
    grpc_slice_intern_init (.transient [2])
    (by decide) (by decide) (by decide)

theorem claim_C9_check :
    (grpc_slice_intern_shutdown
        (grpc_slice_intern (fun c : List Nat => c.sum) [[1], [2]]
          grpc_slice_intern_init (.transient [5])).state true).2
      = (true && (grpc_slice_intern (fun c : List Nat => c.sum) [[1], [2]]
          grpc_slice_intern_init (.transient [5])).state.shards.any
          (fun sh => sh.count != 0)) ∧
    (grpc_slice_intern_shutdown
        (grpc_slice_intern (fun c : List Nat => c.sum) [[1], [2]]
          grpc_slice_intern_init (.transient [5])).state false).1
      = (allHandles (grpc_slice_intern (fun c : List Nat => c.sum)
          [[1], [2]] grpc_slice_intern_init
          (.transient [5])).state).map (fun s => s.content) ∧
    ((∀ sh ∈ (grpc_slice_intern (fun c : List Nat => c.sum) [[1], [2]]
        grpc_slice_intern_init (.transient [5])).state.shards,
        sh.count = 0) →
      (grpc_slice_intern_shutdown
        (grpc_slice_intern (fun c : List Nat => c.sum) [[1], [2]]
          grpc_slice_intern_init (.transient [5])).state true).1 = []) :=
  @claim_C9 (fun c : List Nat => c.sum) [[1], [2]]
    (grpc_slice_intern (fun c : List Nat => c.sum) [[1], [2]]
      grpc_slice_intern_init (.transient [5])).state (by decide) true

theorem claim_C10_check :
    ∃ s0, findHandle (grpc_slice_intern (fun c : List Nat => c.sum)
        [[1], [2]] grpc_slice_intern_init (.transient [5])).state 0
        = some s0 ∧ s0.id = 0 ∧
      grpc_slice_hash (fun c : List Nat => c.sum) [[1], [2]]
        (grpc_slice_intern (fun c : List Nat => c.sum) [[1], [2]]
          grpc_slice_intern_init (.transient [5])).state
        (.interned 0 [5]) = s0.hash ∧
      s0.hash = s0.content.sum ∧
      (grpc_slice_intern (fun c : List Nat => c.sum) [[1], [2]]
        (grpc_slice_intern (fun c : List Nat => c.sum) [[1], [2]]
          grpc_slice_intern_init (.transient [5])).state
        (.interned 0 [5])).allocated = false ∧
      (grpc_slice_intern (fun c : List Nat => c.sum) [[1], [2]]
        (grpc_slice_intern (fun c : List Nat => c.sum) [[1], [2]]
          grpc_slice_intern_init (.transient [5])).state
        (.interned 0 [5])).slice = .interned s0.id s0.content ∧
      findHandle (grpc_slice_intern (fun c : List Nat => c.sum) [[1], [2]]
        (grpc_slice_intern (fun c : List Nat => c.sum) [[1], [2]]
          grpc_slice_intern_init (.transient [5])).state
        (.interned 0 [5])).state s0.id
        = some { s0 with refcnt := s0.refcnt + 1 } ∧
      (∀ id', id' ≠ s0.id →
        findHandle (grpc_slice_intern (fun c : List Nat => c.sum)
          [[1], [2]]
          (grpc_slice_intern (fun c : List Nat => c.sum) [[1], [2]]
            grpc_slice_intern_init (.transient [5])).state
          (.interned 0 [5])).state id'
        = findHandle (grpc_slice_intern (fun c : List Nat => c.sum)
          [[1], [2]] grpc_slice_intern_init (.transient [5])).state id') ∧
      (grpc_slice_intern (fun c : List Nat => c.sum) [[1], [2]]
        (grpc_slice_intern (fun c : List Nat => c.sum) [[1], [2]]
          grpc_slice_intern_init (.transient [5])).state
        (.interned 0 [5])).state.next_id
      = (grpc_slice_intern (fun c : List Nat => c.sum) [[1], [2]]
          grpc_slice_intern_init (.transient [5])).state.next_id :=
  @claim_C10 (fun c : List Nat => c.sum) [[1], [2]]
    (grpc_slice_intern (fun c : List Nat => c.sum) [[1], [2]]
      grpc_slice_intern_init (.transient [5])).state 0 [5]
    (by decide) (by decide)

end SliceIntern
